import Mathlib

/-!
Verification of the response-parsing layer of the AIMusicAgent app
(`src/app.py`).  The Python code is shallowly embedded: strings are
`List Char`, Python floats are modelled as `ℚ` (the full textual
domain of `float()` is recognized; finite literal values are computed
exactly), and the Streamlit / OpenAI effects are modelled by an
explicit call-result oracle.
-/

/-- Python whitespace, as stripped by `str.strip()`. -/
def isSpc (c : Char) : Bool :=
  c == ' ' || c == '\t' || c == '\n' || c == '\r' || c == '\x0b' || c == '\x0c'

/-- Python `str.strip()` on the left end. -/
def trimLeft (l : List Char) : List Char := l.dropWhile isSpc

/-- Python `str.strip()` on the right end. -/
def trimRight (l : List Char) : List Char := (l.reverse.dropWhile isSpc).reverse

/-- Python `str.strip()` with no arguments. -/
def pyStrip (l : List Char) : List Char := trimRight (trimLeft l)

/-- Python `str.strip(chars)`: remove characters of `cs` from both ends. -/
def stripSet (cs : List Char) (l : List Char) : List Char :=
  ((l.dropWhile (fun c => cs.contains c)).reverse.dropWhile (fun c => cs.contains c)).reverse

/-- First occurrence of the substring `pat` in `l`: returns the part
before the occurrence and the part after it (Python's left-to-right,
non-overlapping search used by `in`, `split` and `replace`). -/
def findOcc (pat : List Char) : List Char → Option (List Char × List Char)
  | [] => none
  | c :: r =>
    if List.isPrefixOf pat (c :: r) then some ([], (c :: r).drop pat.length)
    else
      match findOcc pat r with
      | some (b, a) => some (c :: b, a)
      | none => none

/-- Python's substring test `pat in l`. -/
def containsSub (pat l : List Char) : Bool := (findOcc pat l).isSome

/-- Fueled worker for `splitSub`. -/
def splitSubGo : Nat → List Char → List Char → List (List Char)
  | 0, _, l => [l]
  | n + 1, pat, l =>
    match findOcc pat l with
    | none => [l]
    | some (b, a) => b :: splitSubGo n pat a

/-- Python `l.split(pat)` for a nonempty separator `pat`. -/
def splitSub (pat l : List Char) : List (List Char) := splitSubGo (l.length + 1) pat l

/-- Fueled worker for `removeSub`. -/
def removeSubGo : Nat → List Char → List Char → List Char
  | 0, _, l => l
  | n + 1, pat, l =>
    match findOcc pat l with
    | none => l
    | some (b, a) => b ++ removeSubGo n pat a

/-- Python `l.replace(pat, '')`: delete every (non-overlapping,
left-to-right) occurrence of `pat`. -/
def removeSub (pat l : List Char) : List Char := removeSubGo (l.length + 1) pat l

/-- Decimal digit test (Python `str.isdigit` on ASCII digits). -/
def isDigitC (c : Char) : Bool :=
  c == '0' || c == '1' || c == '2' || c == '3' || c == '4' ||
  c == '5' || c == '6' || c == '7' || c == '8' || c == '9'

/-- Value of a digit character. -/
def digitVal (c : Char) : Nat :=
  if c == '1' then 1 else if c == '2' then 2 else if c == '3' then 3
  else if c == '4' then 4 else if c == '5' then 5 else if c == '6' then 6
  else if c == '7' then 7 else if c == '8' then 8 else if c == '9' then 9
  else 0

/-- Numeric value of a digit string. -/
def natOfDigits (l : List Char) : Nat := l.foldl (fun n c => n * 10 + digitVal c) 0

/-- Consume the continuation of a `digitpart` of a Python float
literal: further digits, with single underscores allowed only between
digits; returns the unconsumed remainder. -/
def digRest : List Char → List Char
  | '_' :: c :: r => if isDigitC c then digRest r else '_' :: c :: r
  | c :: r => if isDigitC c then digRest r else c :: r
  | [] => []

/-- Consume a `digitpart` (at least one digit, underscore grouping) of
a Python float literal; `none` when no leading digit. -/
def digPart : List Char → Option (List Char)
  | c :: r => if isDigitC c then some (digRest r) else none
  | [] => none

/-- Lower-case the letters occurring in `inf`/`infinity`/`nan`. -/
def lcChar (c : Char) : Char :=
  if c == 'I' then 'i' else if c == 'N' then 'n' else if c == 'F' then 'f'
  else if c == 'A' then 'a' else if c == 'T' then 't' else if c == 'Y' then 'y' else c

/-- The case-insensitive words `inf`, `infinity` and `nan` accepted by
Python `float`. -/
def isInfNanWord (l : List Char) : Bool :=
  let m := l.map lcChar
  m == "inf".data || m == "infinity".data || m == "nan".data

/-- Recognize the tail of an exponent: optional sign, then a
`digitpart` consuming the whole rest. -/
def expTail (l : List Char) : Bool :=
  let r :=
    match l with
    | '+' :: r => r
    | '-' :: r => r
    | r => r
  match digPart r with
  | some r1 => r1.isEmpty
  | none => false

/-- Recognize an optional exponent (`e`/`E`, optional sign, digits)
consuming the whole rest of the literal. -/
def expOk (l : List Char) : Bool :=
  match l with
  | [] => true
  | 'e' :: r => expTail r
  | 'E' :: r => expTail r
  | _ => false

/-- The domain of Python `float(s)` on whitespace-stripped text:
optional sign, then `inf`/`infinity`/`nan` (case-insensitive) or a
decimal literal `digitpart ['.' [digitpart]] [exp]` or
`'.' digitpart [exp]`, with single underscores allowed between digits.
(Non-ASCII decimal digits, which Python also accepts, are outside the
model, like the non-ASCII whitespace of `isSpc`.)  `float` raises — and
the source's `except` branch stores 0.5 — exactly when this returns
`false`. -/
def pyFloatAccepts (l : List Char) : Bool :=
  let r :=
    match l with
    | '+' :: r => r
    | '-' :: r => r
    | r => r
  if isInfNanWord r then true
  else
    match digPart r with
    | some r1 =>
      let r2 :=
        match r1 with
        | '.' :: r' =>
          (match digPart r' with
           | some r'' => r''
           | none => r')
        | _ => r1
      expOk r2
    | none =>
      match r with
      | '.' :: r' =>
        (match digPart r' with
         | some r'' => expOk r''
         | none => false)
      | _ => false

/-- Delete the underscore digit separators of a float literal. -/
def stripUnders (l : List Char) : List Char := l.filter (fun c => !(c == '_'))

/-- The exact rational value of an accepted finite Python float
literal: sign, integer part, fractional part and decimal exponent.
Returns `none` on `inf`/`nan`, which have no rational value. -/
def pyFloatVal (l : List Char) : Option ℚ :=
  let (neg, r0) :=
    match l with
    | '-' :: r => (true, r)
    | '+' :: r => (false, r)
    | r => (false, r)
  let r := stripUnders r0
  let ip := r.takeWhile isDigitC
  let r1 := r.dropWhile isDigitC
  let (fp, r2) :=
    match r1 with
    | '.' :: r' => (r'.takeWhile isDigitC, r'.dropWhile isDigitC)
    | _ => ([], r1)
  if ip.isEmpty && fp.isEmpty then none
  else
    let (epos, ed) :=
      match r2 with
      | 'e' :: '+' :: r' => (true, r'.takeWhile isDigitC)
      | 'e' :: '-' :: r' => (false, r'.takeWhile isDigitC)
      | 'e' :: r' => (true, r'.takeWhile isDigitC)
      | 'E' :: '+' :: r' => (true, r'.takeWhile isDigitC)
      | 'E' :: '-' :: r' => (false, r'.takeWhile isDigitC)
      | 'E' :: r' => (true, r'.takeWhile isDigitC)
      | _ => (true, [])
    let e := natOfDigits ed
    let n := natOfDigits ip * 10 ^ fp.length + natOfDigits fp
    let num := if epos then n * 10 ^ e else n
    let den := if epos then 10 ^ fp.length else 10 ^ fp.length * 10 ^ e
    some (if neg then -(mkRat (Int.ofNat num) den) else mkRat (Int.ofNat num) den)

/-- Python `float(s)` as an optional rational: `none` exactly on the
inputs where `float` raises (sending the source to its `except`/0.5
branch), plus on `inf`/`nan`, whose non-rational values no claim
depends on (after the clamp the program maps both to 1.0, inside the
interval asserted by C5). -/
def pyFloat (l : List Char) : Option ℚ :=
  if pyFloatAccepts l then pyFloatVal l else none

/-- Python's two-argument `min`: returns the second argument only when
it is strictly smaller. -/
def pyMin (a b : ℚ) : ℚ := if b < a then b else a

/-- Python's two-argument `max`: returns the second argument only when
it is strictly larger. -/
def pyMax (a b : ℚ) : ℚ := if a < b then b else a

/-- The clamp `max(0.0, min(1.0, p))` from the source (line 140). -/
def clamp01 (p : ℚ) : ℚ := pyMax 0 (pyMin 1 p)

/-- The `Song` dataclass of `src/app.py`. -/
structure Song where
  title : String
  artist : String
  genre : String
  popularity : ℚ
deriving DecidableEq

/-- The `current_song` dictionary of `_parse_playlist_response`:
each of the four possible keys is either absent (`none`) or set. -/
structure Accum where
  title : Option (List Char) := none
  artist : Option (List Char) := none
  genre : Option (List Char) := none
  popularity : Option ℚ := none
deriving DecidableEq

/-- The freshly created empty dictionary `{}`. -/
def emptyAcc : Accum := {}

/-- Truthiness of the `current_song` dictionary (`if current_song`). -/
def accumNonempty (a : Accum) : Bool :=
  a.title.isSome || a.artist.isSome || a.genre.isSome || a.popularity.isSome

/-- The check `all(k in current_song for k in ['title', 'artist', 'genre'])`. -/
def accumComplete (a : Accum) : Bool :=
  a.title.isSome && a.artist.isSome && a.genre.isSome

/-- The record `Song(**current_song)` after the missing-popularity default of 0.5
has been applied; only ever used on a complete accumulator. -/
def finishSong (a : Accum) : Song :=
  { title := String.mk (a.title.getD [])
    artist := String.mk (a.artist.getD [])
    genre := String.mk (a.genre.getD [])
    popularity := a.popularity.getD (mkRat 1 2) }

/-- The characters of `'- '` removed by `line.replace('- ', '')`. -/
def dashSp : List Char := ['-', ' ']

/-- The characters of the label `'Title:'`. -/
def labelT : List Char := ['T', 'i', 't', 'l', 'e', ':']

/-- The characters of the label `'Artist:'`. -/
def labelA : List Char := ['A', 'r', 't', 'i', 's', 't', ':']

/-- The characters of the label `'Genre:'`. -/
def labelG : List Char := ['G', 'e', 'n', 'r', 'e', ':']

/-- The characters of the label `'Popularity:'`. -/
def labelP : List Char := ['P', 'o', 'p', 'u', 'l', 'a', 'r', 'i', 't', 'y', ':']

/-- The characters of `' by '` (fallback heuristic). -/
def byPat : List Char := [' ', 'b', 'y', ' ']

/-- The characters of `' ('` (fallback heuristic). -/
def sParen : List Char := [' ', '(']

/-- The characters of `'0123456789.- '` (fallback title strip set). -/
def numChars : List Char :=
  ['0', '1', '2', '3', '4', '5', '6', '7', '8', '9', '.', '-', ' ']

/-- The `try/except` of lines 138-142: parse the popularity text with
`float`, clamp it into [0, 1]; on failure store 0.5. -/
def popParsed (l : List Char) : ℚ :=
  match pyFloat l with
  | some p => clamp01 p
  | none => mkRat 1 2

/-- Body of the `for line in lines` loop of `_parse_playlist_response`,
applied to the line after `line.replace('- ', '').strip()` (lines
121-142 of `src/app.py`). -/
def stepCore (st : List Song × Accum) (line : List Char) : List Song × Accum :=
  if containsSub labelT line then
    let st' :=
      if accumNonempty st.2 && accumComplete st.2 then
        (st.1 ++ [finishSong st.2], emptyAcc)
      else st
    (st'.1, { st'.2 with title := some (pyStrip ((splitSub labelT line).getD 1 [])) })
  else if containsSub labelA line then
    (st.1, { st.2 with artist := some (pyStrip ((splitSub labelA line).getD 1 [])) })
  else if containsSub labelG line then
    (st.1, { st.2 with genre := some (pyStrip ((splitSub labelG line).getD 1 [])) })
  else if containsSub labelP line then
    (st.1, { st.2 with popularity := some (popParsed (pyStrip ((splitSub labelP line).getD 1 []))) })
  else st

/-- One loop iteration including the `line.replace('- ', '').strip()`
normalization at the top of the loop body (line 123). -/
def stepLine (st : List Song × Accum) (rawLine : List Char) : List Song × Accum :=
  stepCore st (pyStrip (removeSub dashSp rawLine))

/-- The trailing flush of lines 144-148: append the last song if the
accumulator is nonempty and complete. -/
def finishPass (st : List Song × Accum) : List Song :=
  if accumNonempty st.2 && accumComplete st.2 then st.1 ++ [finishSong st.2] else st.1

/-- The comprehension `[line.strip() for line in response_text.split('\n') if line.strip()]`
(line 119): split on newlines, strip each line, drop empty lines. -/
def parseLines (text : List Char) : List (List Char) :=
  ((splitSub ['\n'] text).map pyStrip).filter (fun l => !l.isEmpty)

/-- The primary, line-oriented parsing pass (lines 113-148): the
labelled-field accumulator loop over the prepared lines, then the final
flush. -/
def parsePass1 (text : List Char) : List Song :=
  finishPass ((parseLines text).foldl stepLine ([], emptyAcc))

/-- One line of the fallback heuristic (lines 156-162): lines
containing `' by '`, `' ('` and `')'` yield a song with the numbering
strip applied to the title and popularity 0.5. -/
def fallbackLine (line : List Char) : Option Song :=
  if containsSub byPat line && containsSub sParen line && containsSub [')'] line then
    some
      { title := String.mk (stripSet numChars ((splitSub byPat line).getD 0 []))
        artist := String.mk (pyStrip ((splitSub sParen ((splitSub byPat line).getD 1 [])).getD 0 []))
        genre := String.mk (pyStrip ((splitSub [')'] ((splitSub ['('] line).getD 1 [])).getD 0 []))
        popularity := mkRat 1 2 }
  else none

/-- The fallback parsing pass (lines 150-164): re-split the raw text on
newlines (no stripping) and scan for `<title> by <artist> (<genre>)`. -/
def fallbackPass (text : List Char) : List Song :=
  (splitSub ['\n'] text).filterMap fallbackLine

/-- The descending-popularity comparison used by
`songs.sort(key=lambda x: x.popularity, reverse=True)`. -/
def popGE (a b : Song) : Prop := b.popularity ≤ a.popularity

instance : DecidableRel popGE := fun a b =>
  inferInstanceAs (Decidable (b.popularity ≤ a.popularity))

instance : IsTotal Song popGE := ⟨fun a b => le_total b.popularity a.popularity⟩

instance : IsTrans Song popGE := ⟨fun _ _ _ h h' => le_trans h' h⟩

/-- Model of `MusicAgent._parse_playlist_response` (lines 112-168): primary
pass, fallback when it yields nothing, stable sort by descending
popularity, truncation to 25 songs. -/
def parsePlaylistResponse (responseText : String) : List Song :=
  let p := parsePass1 responseText.data
  let songs := if p.isEmpty then fallbackPass responseText.data else p
  (List.insertionSort popGE songs).take 25

/-- Model of `MusicAgent.generate_playlist` (lines 48-110), with the OpenAI
chat-completion call modelled by its outcome: either an exception
(`Except.error`) or the returned response text (`Except.ok`).  The
result pairs the returned playlist with the list of user-visible
messages emitted through `st.error` / `st.info`.  The function is
total: no exception escapes (the whole body sits inside `try/except`).
-/
def generatePlaylist (callResult : Except String String) : List Song × List String :=
  match callResult with
  | Except.error e => ([], ["Error generating playlist: " ++ e])
  | Except.ok text =>
    let playlist := parsePlaylistResponse text
    if playlist.isEmpty then
      ([], ["Failed to generate playlist. Please try again."])
    else
      (playlist, ["Playlist distribution: " ++
        toString (playlist.filter (fun s => mkRat 8 10 ≤ s.popularity)).length ++ " popular, " ++
        toString (playlist.filter (fun s => mkRat 1 2 ≤ s.popularity && s.popularity < mkRat 8 10)).length ++ " moderate, " ++
        toString (playlist.filter (fun s => s.popularity < mkRat 1 2)).length ++ " hidden"])

example :
    parsePlaylistResponse "- Title: Yesterday\n- Artist: The Beatles\n- Genre: Rock\n- Popularity: 0.9"
      = [{ title := "Yesterday", artist := "The Beatles", genre := "Rock",
           popularity := mkRat 9 10 }] := by decide

example :
    parsePlaylistResponse "Title: A\nArtist: X\nTitle: B\nGenre: G"
      = [{ title := "B", artist := "X", genre := "G", popularity := mkRat 1 2 }] := by decide

example :
    parsePlaylistResponse "Title: A\nGenre: G\nTitle: B\nArtist: X"
      = [{ title := "B", artist := "X", genre := "G", popularity := mkRat 1 2 }] := by decide

example :
    parsePlaylistResponse "- Title: A - B\n- Artist: X\n- Genre: G"
      = [{ title := "A B", artist := "X", genre := "G", popularity := mkRat 1 2 }] := by decide

example :
    parsePlaylistResponse "3. Formula 1 by X (Pop)"
      = [{ title := "Formula", artist := "X", genre := "Pop", popularity := mkRat 1 2 }] := by decide

example : parsePlaylistResponse "" = [] := by decide

example : pyFloat "0.9".data = some (mkRat 9 10) := by decide

example : pyFloat "1e2".data = some 100 := by decide

example : pyFloat "1_0".data = some 10 := by decide

example : pyFloat "1.5e-1".data = some (mkRat 3 20) := by decide

example : pyFloat "-.5".data = some (mkRat (-1) 2) := by decide

example : pyFloat "7.".data = some 7 := by decide

example :
    pyFloatAccepts "inf".data = true ∧ pyFloatAccepts "-Infinity".data = true ∧
      pyFloatAccepts "NaN".data = true ∧ pyFloatAccepts "+.5e+3".data = true ∧
      pyFloatAccepts "1_0.5_5e1_0".data = true := by decide

example :
    pyFloatAccepts "unknown".data = false ∧ pyFloatAccepts "".data = false ∧
      pyFloatAccepts "1_".data = false ∧ pyFloatAccepts "_1".data = false ∧
      pyFloatAccepts "1__0".data = false ∧ pyFloatAccepts "1._5".data = false ∧
      pyFloatAccepts ".".data = false ∧ pyFloatAccepts "1e".data = false ∧
      pyFloatAccepts "1e2.5".data = false ∧ pyFloatAccepts "0x1A".data = false ∧
      pyFloatAccepts "1 0".data = false ∧ pyFloatAccepts "infx".data = false := by decide

example :
    parsePlaylistResponse "Title: A\nArtist: X\nGenre: G\nPopularity: 1e2"
      = [{ title := "A", artist := "X", genre := "G", popularity := 1 }] := by decide

/-! ### Generic facts about the sort / truncate post-processing -/

/-- The sort `songs.sort(key=..., reverse=True)` yields descending popularity. -/
theorem pairwise_sortDesc (l : List Song) :
    List.Pairwise popGE (List.insertionSort popGE l) :=
  List.sorted_insertionSort popGE l

theorem mem_sortDesc {l : List Song} {x : Song} :
    x ∈ List.insertionSort popGE l ↔ x ∈ l :=
  List.mem_insertionSort popGE

theorem length_sortDesc (l : List Song) :
    (List.insertionSort popGE l).length = l.length :=
  (List.perm_insertionSort popGE l).length_eq

/-- The final result of `_parse_playlist_response`, before sorting. -/
def chosenSongs (s : String) : List Song :=
  if (parsePass1 s.data).isEmpty then fallbackPass s.data else parsePass1 s.data

theorem parsePlaylistResponse_eq (s : String) :
    parsePlaylistResponse s = (List.insertionSort popGE (chosenSongs s)).take 25 := rfl

theorem mem_parsePlaylistResponse {s : String} {x : Song}
    (h : x ∈ parsePlaylistResponse s) : x ∈ chosenSongs s := by
  rw [parsePlaylistResponse_eq] at h
  exact mem_sortDesc.1 (List.mem_of_mem_take h)

/-! ### Popularity bounds invariant -/

/-- The interval invariant for one song. -/
def songOK (x : Song) : Prop := 0 ≤ x.popularity ∧ x.popularity ≤ 1

/-- The interval invariant for the popularity slot of the accumulator. -/
def accOK (a : Accum) : Prop := ∀ p, a.popularity = some p → 0 ≤ p ∧ p ≤ 1

theorem clamp01_bounds (p : ℚ) : 0 ≤ clamp01 p ∧ clamp01 p ≤ 1 := by
  unfold clamp01 pyMax pyMin
  split_ifs <;> constructor <;> linarith

theorem half_bounds : 0 ≤ mkRat 1 2 ∧ (mkRat 1 2 : ℚ) ≤ 1 := by decide

theorem popParsed_bounds (l : List Char) : 0 ≤ popParsed l ∧ popParsed l ≤ 1 := by
  unfold popParsed
  cases pyFloat l with
  | some p => exact clamp01_bounds p
  | none => exact half_bounds

theorem finishSong_ok {a : Accum} (h : accOK a) : songOK (finishSong a) := by
  unfold songOK finishSong
  cases hp : a.popularity with
  | some p => simpa [hp] using h p hp
  | none => simpa [hp] using half_bounds

theorem stepCore_ok {st : List Song × Accum} {line : List Char}
    (h1 : ∀ x ∈ st.1, songOK x) (h2 : accOK st.2) :
    (∀ x ∈ (stepCore st line).1, songOK x) ∧ accOK (stepCore st line).2 := by
  obtain ⟨songs, cur⟩ := st
  unfold stepCore
  cases hT : containsSub labelT line with
  | true =>
    cases hc : (accumNonempty cur && accumComplete cur) with
    | true =>
      simp only [hT, hc, if_true]
      refine ⟨fun x hx => ?_, fun p hp => ?_⟩
      · rcases List.mem_append.1 hx with hx | hx
        · exact h1 x hx
        · rcases List.mem_singleton.1 hx with rfl
          exact finishSong_ok h2
      · simp [emptyAcc] at hp
    | false =>
      simp only [hc, hT, if_true, Bool.false_eq_true, if_false]
      exact ⟨h1, fun p hp => h2 p hp⟩
  | false =>
    simp only [hT, Bool.false_eq_true, if_false]
    cases hA : containsSub labelA line with
    | true =>
      simp only [hA, if_true]
      exact ⟨h1, fun p hp => h2 p hp⟩
    | false =>
      simp only [hA, Bool.false_eq_true, if_false]
      cases hG : containsSub labelG line with
      | true =>
        simp only [hG, if_true]
        exact ⟨h1, fun p hp => h2 p hp⟩
      | false =>
        simp only [hG, Bool.false_eq_true, if_false]
        cases hP : containsSub labelP line with
        | true =>
          simp only [hP, if_true]
          refine ⟨h1, fun p hp => ?_⟩
          simp only [Option.some.injEq] at hp
          rw [← hp]
          exact popParsed_bounds _
        | false =>
          simp only [hP, Bool.false_eq_true, if_false]
          exact ⟨h1, h2⟩

theorem stepLine_ok {st : List Song × Accum} {raw : List Char}
    (h1 : ∀ x ∈ st.1, songOK x) (h2 : accOK st.2) :
    (∀ x ∈ (stepLine st raw).1, songOK x) ∧ accOK (stepLine st raw).2 :=
  stepCore_ok h1 h2

theorem foldl_stepLine_ok (lines : List (List Char)) (st : List Song × Accum)
    (h1 : ∀ x ∈ st.1, songOK x) (h2 : accOK st.2) :
    (∀ x ∈ (lines.foldl stepLine st).1, songOK x) ∧ accOK (lines.foldl stepLine st).2 := by
  induction lines generalizing st with
  | nil => exact ⟨h1, h2⟩
  | cons l ls ih =>
    have h := @stepLine_ok st l h1 h2
    exact ih (stepLine st l) h.1 h.2

theorem finishPass_ok {st : List Song × Accum}
    (h1 : ∀ x ∈ st.1, songOK x) (h2 : accOK st.2) :
    ∀ x ∈ finishPass st, songOK x := by
  unfold finishPass
  split_ifs with hc
  · intro x hx
    rcases List.mem_append.1 hx with hx | hx
    · exact h1 x hx
    · rcases List.mem_singleton.1 hx with rfl
      exact finishSong_ok h2
  · exact h1

theorem parsePass1_ok (t : List Char) : ∀ x ∈ parsePass1 t, songOK x := by
  unfold parsePass1
  have base1 : ∀ x ∈ ([] : List Song), songOK x := by simp
  have base2 : accOK emptyAcc := by intro p hp; simp [emptyAcc] at hp
  have h := foldl_stepLine_ok (parseLines t) ([], emptyAcc) base1 base2
  exact finishPass_ok h.1 h.2

theorem fallbackPass_half (t : List Char) :
    ∀ x ∈ fallbackPass t, x.popularity = mkRat 1 2 := by
  intro x hx
  obtain ⟨line, _, hline⟩ := List.mem_filterMap.1 hx
  unfold fallbackLine at hline
  split_ifs at hline
  simp only [Option.some.injEq] at hline
  rw [← hline]

theorem chosenSongs_ok (s : String) : ∀ x ∈ chosenSongs s, songOK x := by
  unfold chosenSongs
  split_ifs with hc
  · intro x hx
    have hhalf := fallbackPass_half s.data x hx
    unfold songOK
    rw [hhalf]
    exact half_bounds
  · exact parsePass1_ok s.data

/-! ### Claim theorems: C2, C5, C7 -/

/-- Concrete well-formed response used in several witnesses: the
Yesterday example from the specification. -/
def exYesterday : String :=
  "- Title: Yesterday\n- Artist: The Beatles\n- Genre: Rock\n- Popularity: 0.9"

/-- Claim C2: for every input text (including garbage, over-long, or
empty input), the list returned by the parser has length at most 25 and
is sorted by popularity in descending order. -/
theorem c2_output_bounded_and_sorted (s : String) :
    (parsePlaylistResponse s).length ≤ 25 ∧
      List.Pairwise popGE (parsePlaylistResponse s) := by
  rw [parsePlaylistResponse_eq]
  constructor
  · have := List.length_take 25 (List.insertionSort popGE (chosenSongs s))
    omega
  · exact (pairwise_sortDesc (chosenSongs s)).sublist (List.take_sublist _ _)

/-- Claim C5: every Song record emitted by the parser (primary
line-oriented pass or fallback pass) has a popularity value in the
closed interval [0, 1]; parsed values are clamped to the nearest bound
(`clamp01`) and defaulted values are 0.5. -/
theorem c5_popularity_in_unit_interval :
    (∀ (s : String) (x : Song), x ∈ parsePlaylistResponse s →
        0 ≤ x.popularity ∧ x.popularity ≤ 1) ∧
    (∀ p : ℚ, 1 ≤ p → clamp01 p = 1) ∧ (∀ p : ℚ, p ≤ 0 → clamp01 p = 0) := by
  refine ⟨fun s x h => chosenSongs_ok s x (mem_parsePlaylistResponse h), ?_, ?_⟩
  · intro p hp
    unfold clamp01 pyMax pyMin
    split_ifs <;> linarith
  · intro p hp
    unfold clamp01 pyMax pyMin
    split_ifs <;> linarith

/-- Witness for C5 at the Yesterday example. -/
theorem c5_popularity_in_unit_interval_witness :
    Song.mk "Yesterday" "The Beatles" "Rock" (mkRat 9 10) ∈ parsePlaylistResponse exYesterday ∧
      (0 ≤ (Song.mk "Yesterday" "The Beatles" "Rock" (mkRat 9 10)).popularity ∧
        (Song.mk "Yesterday" "The Beatles" "Rock" (mkRat 9 10)).popularity ≤ 1) :=
  ⟨by decide, c5_popularity_in_unit_interval.1 exYesterday _ (by decide)⟩

/-- Claim C7: for every failure of the generation call (modelled by the
`Except.error` outcome of the network call) or of parsing its response
(empty parse result), `generate_playlist` returns the empty list
together with a user-visible message; the function is a total Lean
function, so no exception propagates on any input. -/
theorem c7_failures_yield_empty_and_message (r : Except String String) :
    ((∃ e, r = Except.error e) →
      (generatePlaylist r).1 = [] ∧ (generatePlaylist r).2 ≠ []) ∧
    (∀ t, r = Except.ok t → parsePlaylistResponse t = [] →
      (generatePlaylist r).1 = [] ∧ (generatePlaylist r).2 ≠ []) := by
  constructor
  · rintro ⟨e, rfl⟩
    simp [generatePlaylist]
  · rintro t rfl hp
    simp [generatePlaylist, hp]

/-- Witness for C7: a failed call and a garbage (empty) response. -/
theorem c7_failures_yield_empty_and_message_witness :
    (generatePlaylist (Except.error "oops")).1 = [] ∧
      (generatePlaylist (Except.error "oops")).2 ≠ [] ∧
      (generatePlaylist (Except.ok "")).1 = [] ∧
      (generatePlaylist (Except.ok "")).2 ≠ [] := by
  have hA := (c7_failures_yield_empty_and_message (Except.error "oops")).1 ⟨"oops", rfl⟩
  have hB := (c7_failures_yield_empty_and_message (Except.ok "")).2 "" rfl (by decide)
  exact ⟨hA.1, hA.2, hB.1, hB.2⟩


/-! ### Substring-occurrence machinery -/

/-- Proposition that `pat` occurs as a contiguous substring of `l`. -/
def Occurs (pat l : List Char) : Prop := ∃ s t, l = s ++ pat ++ t

theorem isPrefixOf_nil_left (l : List Char) : List.isPrefixOf ([] : List Char) l = true := by
  cases l <;> rfl

theorem isPrefixOf_exists {p l : List Char} (h : List.isPrefixOf p l = true) :
    ∃ t, l = p ++ t := by
  induction p generalizing l with
  | nil => exact ⟨l, rfl⟩
  | cons a as ih =>
    cases l with
    | nil => simp [List.isPrefixOf] at h
    | cons b bs =>
      simp only [List.isPrefixOf, Bool.and_eq_true, beq_iff_eq] at h
      obtain ⟨rfl, h2⟩ := h
      obtain ⟨t, rfl⟩ := ih h2
      exact ⟨t, rfl⟩

theorem isPrefixOf_of_append (p t : List Char) : List.isPrefixOf p (p ++ t) = true := by
  induction p with
  | nil => exact isPrefixOf_nil_left t
  | cons a as ih => simp [List.isPrefixOf, ih]

theorem isPrefixOf_append_of_le {p l : List Char} (r : List Char) (h : p.length ≤ l.length) :
    List.isPrefixOf p (l ++ r) = List.isPrefixOf p l := by
  induction p generalizing l with
  | nil => rw [isPrefixOf_nil_left, isPrefixOf_nil_left]
  | cons a as ih =>
    cases l with
    | nil => simp at h
    | cons b bs =>
      simp only [List.cons_append, List.isPrefixOf, List.append_eq]
      rw [ih (by simpa using h)]

theorem findOcc_some {pat l b a : List Char} (h : findOcc pat l = some (b, a)) :
    l = b ++ pat ++ a := by
  induction l generalizing b with
  | nil => simp [findOcc] at h
  | cons c r ih =>
    simp only [findOcc] at h
    split_ifs at h with hp
    · simp only [Option.some.injEq, Prod.mk.injEq] at h
      obtain ⟨rfl, rfl⟩ := h
      obtain ⟨t, ht⟩ := isPrefixOf_exists hp
      rw [List.nil_append, ht, List.drop_left]
    · cases hf : findOcc pat r with
      | none => rw [hf] at h; simp at h
      | some ba =>
        obtain ⟨b', a'⟩ := ba
        rw [hf] at h
        simp only [Option.some.injEq, Prod.mk.injEq] at h
        obtain ⟨rfl, rfl⟩ := h
        have hr := ih hf
        rw [List.cons_append, List.cons_append, ← hr]

theorem findOcc_none_not_occurs {pat l : List Char} (hpat : pat ≠ [])
    (h : findOcc pat l = none) : ¬ Occurs pat l := by
  induction l with
  | nil =>
    rintro ⟨s, t, hst⟩
    have hl := congrArg List.length hst
    simp only [List.length_nil, List.length_append] at hl
    have hz : pat.length = 0 := by omega
    exact hpat (List.length_eq_zero.1 hz)
  | cons c r ih =>
    simp only [findOcc] at h
    split_ifs at h with hp
    cases hf : findOcc pat r with
    | some ba => rw [hf] at h; simp at h
    | none =>
      rintro ⟨s, t, hst⟩
      cases s with
      | nil =>
        simp only [List.nil_append] at hst
        rw [hst] at hp
        exact hp (isPrefixOf_of_append pat t)
      | cons d s' =>
        simp only [List.cons_append] at hst
        injection hst with h1 h2
        exact ih hf ⟨s', t, h2⟩

theorem occurs_of_findOcc_some {pat l b a : List Char}
    (h : findOcc pat l = some (b, a)) : Occurs pat l :=
  ⟨b, a, findOcc_some h⟩

theorem containsSub_true_iff {pat l : List Char} (hpat : pat ≠ []) :
    containsSub pat l = true ↔ Occurs pat l := by
  unfold containsSub
  constructor
  · intro h
    cases hf : findOcc pat l with
    | none => rw [hf] at h; simp at h
    | some ba =>
      obtain ⟨b, a⟩ := ba
      exact occurs_of_findOcc_some hf
  · intro h
    cases hf : findOcc pat l with
    | none => exact absurd h (findOcc_none_not_occurs hpat hf)
    | some ba => rfl

theorem containsSub_false_iff {pat l : List Char} (hpat : pat ≠ []) :
    containsSub pat l = false ↔ ¬ Occurs pat l := by
  rw [← containsSub_true_iff hpat]
  cases containsSub pat l <;> simp

theorem occurs_subset {pat l : List Char} (h : Occurs pat l) : ∀ c ∈ pat, c ∈ l := by
  intro c hc
  obtain ⟨s, t, rfl⟩ := h
  simp [hc]

theorem occurs_append_cases {pat pre w : List Char} (h : Occurs pat (pre ++ w)) :
    Occurs pat pre ∨ Occurs pat w ∨
      ∃ p₁ p₂, p₁ ≠ [] ∧ p₂ ≠ [] ∧ pat = p₁ ++ p₂ ∧
        (∃ s, pre = s ++ p₁) ∧ (∃ t, w = p₂ ++ t) := by
  obtain ⟨s, t, hst⟩ := h
  rw [List.append_assoc] at hst
  rcases List.append_eq_append_iff.1 hst with ⟨m, hm1, hm2⟩ | ⟨m, hm1, hm2⟩
  · -- s = pre ++ m, w = m ++ (pat ++ t): the occurrence sits inside w
    right; left
    exact ⟨m, t, hm2.trans (List.append_assoc m pat t).symm⟩
  · -- pre = s ++ m, pat ++ t = m ++ w
    rcases List.append_eq_append_iff.1 hm2 with ⟨k, hk1, hk2⟩ | ⟨k, hk1, hk2⟩
    · -- m = pat ++ k, t = k ++ w: the occurrence sits inside pre
      left
      refine ⟨s, k, ?_⟩
      rw [hm1, hk1, List.append_assoc]
    · -- pat = m ++ k, w = k ++ t
      cases m with
      | nil =>
        right; left
        refine ⟨[], t, ?_⟩
        simp only [List.nil_append] at hk1
        rw [hk2, hk1, List.nil_append]
      | cons d m' =>
        cases k with
        | nil =>
          left
          refine ⟨s, [], ?_⟩
          rw [List.append_nil] at hk1
          rw [hm1, hk1, List.append_nil]
        | cons e k' =>
          right; right
          exact ⟨d :: m', e :: k', by simp, by simp, hk1, ⟨s, hm1⟩, ⟨t, hk2⟩⟩

/-- Decidable absence of a suffix/prefix overlap between `pre` and
`pat`: no nonempty suffix of `pre` is a prefix of `pat`. -/
def noSpan (pat pre : List Char) : Bool :=
  pre.tails.all (fun p₁ => p₁.isEmpty || !(List.isPrefixOf p₁ pat))

theorem suffix_mem_tails {s p₁ pre : List Char} (h : pre = s ++ p₁) : p₁ ∈ pre.tails :=
  (List.mem_tails _ _).2 ⟨s, h.symm⟩

theorem noSpan_elim {pat pre : List Char} (hn : noSpan pat pre = true)
    {p₁ p₂ s : List Char} (hpre : pre = s ++ p₁) (hpat : pat = p₁ ++ p₂)
    (h1 : p₁ ≠ []) : False := by
  have hall := List.all_eq_true.1 hn p₁ (suffix_mem_tails hpre)
  simp only [Bool.or_eq_true, Bool.not_eq_true', List.isEmpty_iff] at hall
  rcases hall with rfl | hnp
  · exact h1 rfl
  · rw [hpat, isPrefixOf_of_append] at hnp
    simp at hnp

/-- The workhorse: a pattern absent from both halves and unable to span
the boundary is absent from the concatenation. -/
theorem containsSub_append_false {pat pre w : List Char} (hpat : pat ≠ [])
    (h1 : containsSub pat pre = false) (h2 : containsSub pat w = false)
    (h3 : noSpan pat pre = true) : containsSub pat (pre ++ w) = false := by
  rw [containsSub_false_iff hpat]
  intro hocc
  rcases occurs_append_cases hocc with hc | hc | ⟨p₁, p₂, hp1, _, hp, ⟨s, hs⟩, _⟩
  · exact (containsSub_false_iff hpat).1 h1 hc
  · exact (containsSub_false_iff hpat).1 h2 hc
  · exact noSpan_elim h3 hs hp hp1

/-- Absence via a witness character present in the pattern but not the
text. -/
theorem containsSub_false_of_not_mem {pat l : List Char} {c : Char} (hpat : pat ≠ [])
    (hc : c ∈ pat) (hl : c ∉ l) : containsSub pat l = false := by
  rw [containsSub_false_iff hpat]
  intro hocc
  exact hl (occurs_subset hocc c hc)

theorem findOcc_cons_pos {pat : List Char} {c : Char} {r : List Char}
    (hp : List.isPrefixOf pat (c :: r) = true) :
    findOcc pat (c :: r) = some ([], (c :: r).drop pat.length) := by
  simp only [findOcc, hp, if_true]

theorem findOcc_cons_neg {pat : List Char} {c : Char} {r : List Char}
    (hp : List.isPrefixOf pat (c :: r) = false) :
    findOcc pat (c :: r) =
      match findOcc pat r with
      | some (b, a) => some (c :: b, a)
      | none => none := by
  simp only [findOcc, hp, Bool.false_eq_true, if_false]

theorem findOcc_self {pat r : List Char} (hpat : pat ≠ []) :
    findOcc pat (pat ++ r) = some ([], r) := by
  cases pat with
  | nil => exact absurd rfl hpat
  | cons c ps =>
    show findOcc (c :: ps) (c :: (ps ++ r)) = some ([], r)
    rw [findOcc_cons_pos (show List.isPrefixOf (c :: ps) (c :: (ps ++ r)) = true from
      isPrefixOf_of_append (c :: ps) r)]
    rw [show (c :: (ps ++ r)) = (c :: ps) ++ r from rfl, List.drop_left]

theorem containsSub_self_append {pat r : List Char} (hpat : pat ≠ []) :
    containsSub pat (pat ++ r) = true := by
  unfold containsSub
  rw [findOcc_self hpat]
  rfl

theorem findOcc_single {a : Char} {l r : List Char} (hl : a ∉ l) :
    findOcc [a] (l ++ a :: r) = some (l, r) := by
  induction l with
  | nil =>
    rw [List.nil_append, show (a :: r) = [a] ++ r from rfl]
    exact findOcc_self (by simp)
  | cons c l' ih =>
    have hac : a ≠ c := fun h => hl (by rw [h]; exact List.mem_cons_self c l')
    have hl' : a ∉ l' := fun h => hl (List.mem_cons_of_mem c h)
    have hpre : List.isPrefixOf [a] (c :: (l' ++ a :: r)) = false := by
      simp [List.isPrefixOf, hac]
    rw [List.cons_append, findOcc_cons_neg hpre, ih hl']

theorem findOcc_some_shorter {pat l b a : List Char} (hpat : pat ≠ [])
    (h : findOcc pat l = some (b, a)) : a.length < l.length := by
  have hd := findOcc_some h
  rw [hd]
  simp only [List.length_append]
  have hpos : 0 < pat.length := List.length_pos.2 hpat
  omega

theorem splitSubGo_congr {pat : List Char} (hpat : pat ≠ []) :
    ∀ n m l, l.length < n → l.length < m → splitSubGo n pat l = splitSubGo m pat l := by
  intro n
  induction n with
  | zero => intro m l h _; exact absurd h (Nat.not_lt_zero _)
  | succ n ih =>
    intro m l hn hm
    cases m with
    | zero => exact absurd hm (Nat.not_lt_zero _)
    | succ m =>
      cases hf : findOcc pat l with
      | none => simp only [splitSubGo, hf]
      | some ba =>
        obtain ⟨b, a⟩ := ba
        have ha := findOcc_some_shorter hpat hf
        simp only [splitSubGo, hf]
        rw [ih m a (by omega) (by omega)]

theorem splitSub_of_none {pat l : List Char} (h : findOcc pat l = none) :
    splitSub pat l = [l] := by
  unfold splitSub
  simp [splitSubGo, h]

theorem splitSub_of_some {pat l b a : List Char} (hpat : pat ≠ [])
    (h : findOcc pat l = some (b, a)) : splitSub pat l = b :: splitSub pat a := by
  have ha := findOcc_some_shorter hpat h
  have h1 : splitSub pat l = b :: splitSubGo l.length pat a := by
    unfold splitSub
    simp only [splitSubGo, h]
  rw [h1]
  unfold splitSub
  rw [splitSubGo_congr hpat l.length (a.length + 1) a (by omega) (by omega)]

theorem removeSubGo_of_none {pat l : List Char} (h : findOcc pat l = none) :
    ∀ n, removeSubGo n pat l = l := by
  intro n
  cases n with
  | zero => rfl
  | succ n => simp [removeSubGo, h]

theorem removeSub_of_none {pat l : List Char} (h : findOcc pat l = none) :
    removeSub pat l = l :=
  removeSubGo_of_none h _

theorem removeSub_step {pat l b a : List Char}
    (h : findOcc pat l = some (b, a)) (ha : findOcc pat a = none) :
    removeSub pat l = b ++ a := by
  unfold removeSub
  simp only [removeSubGo, h]
  rw [removeSubGo_of_none ha]

/-! ### Clean field values and line normalization -/

/-- The first character exists and is not whitespace. -/
def headNotSpace : List Char → Bool
  | [] => false
  | c :: _ => !isSpc c

/-- A *clean* field value: nonempty, no surrounding whitespace, free of
`':'`, newlines and of the `'- '` sequence the loop deletes.  Rendered
blocks built from clean values round-trip through the parser
unchanged. -/
def cleanVal (v : List Char) : Bool :=
  headNotSpace v && headNotSpace v.reverse &&
  v.all (fun c => !(c == ':') && !(c == '\n')) &&
  (findOcc dashSp v).isNone

theorem headNotSpace_elim {v : List Char} (h : headNotSpace v = true) :
    ∃ c m, v = c :: m ∧ isSpc c = false := by
  cases v with
  | nil => simp [headNotSpace] at h
  | cons c m => exact ⟨c, m, rfl, by simpa [headNotSpace] using h⟩

theorem headNotSpace_cons {c : Char} (l : List Char) (hc : isSpc c = false) :
    headNotSpace (c :: l) = true := by
  simp [headNotSpace, hc]

theorem cleanVal_head {v : List Char} (hv : cleanVal v = true) : headNotSpace v = true := by
  simp only [cleanVal, Bool.and_eq_true] at hv
  exact hv.1.1.1

theorem cleanVal_rev {v : List Char} (hv : cleanVal v = true) :
    headNotSpace v.reverse = true := by
  simp only [cleanVal, Bool.and_eq_true] at hv
  exact hv.1.1.2

theorem cleanVal_no_colon {v : List Char} (hv : cleanVal v = true) : ':' ∉ v := by
  simp only [cleanVal, Bool.and_eq_true] at hv
  intro hmem
  have := List.all_eq_true.1 hv.1.2 ':' hmem
  simp at this

theorem cleanVal_no_newline {v : List Char} (hv : cleanVal v = true) : '\n' ∉ v := by
  simp only [cleanVal, Bool.and_eq_true] at hv
  intro hmem
  have := List.all_eq_true.1 hv.1.2 '\n' hmem
  simp at this

theorem cleanVal_no_dashSp {v : List Char} (hv : cleanVal v = true) :
    findOcc dashSp v = none := by
  simp only [cleanVal, Bool.and_eq_true] at hv
  exact Option.isNone_iff_eq_none.1 hv.2

theorem colon_not_mem_space_cons {v : List Char} (hv : cleanVal v = true) :
    ':' ∉ ' ' :: v := by
  intro hmem
  rcases List.mem_cons.1 hmem with h | h
  · simp at h
  · exact cleanVal_no_colon hv h

theorem trimLeft_cons_of_not {c : Char} {l : List Char} (h : isSpc c = false) :
    trimLeft (c :: l) = c :: l := by
  unfold trimLeft
  rw [List.dropWhile_cons]
  simp [h]

theorem trimRight_of_last {l : List Char} {d : Char} {m : List Char}
    (hrev : l.reverse = d :: m) (hd : isSpc d = false) : trimRight l = l := by
  unfold trimRight
  rw [hrev, List.dropWhile_cons]
  simp only [hd, Bool.false_eq_true, if_false]
  rw [← hrev, List.reverse_reverse]

theorem pyStrip_eq_self {l : List Char} (h1 : headNotSpace l = true)
    (h2 : headNotSpace l.reverse = true) : pyStrip l = l := by
  obtain ⟨c, m, rfl, hc⟩ := headNotSpace_elim h1
  obtain ⟨d, m', hrev, hd⟩ := headNotSpace_elim h2
  unfold pyStrip
  rw [trimLeft_cons_of_not hc]
  exact trimRight_of_last hrev hd

theorem pyStrip_space_cons {v : List Char} (h1 : headNotSpace v = true)
    (h2 : headNotSpace v.reverse = true) : pyStrip (' ' :: v) = v := by
  obtain ⟨c, m, hv, hc⟩ := headNotSpace_elim h1
  unfold pyStrip trimLeft
  rw [List.dropWhile_cons]
  simp only [show isSpc ' ' = true from rfl, if_true]
  rw [hv, List.dropWhile_cons]
  simp only [hc, Bool.false_eq_true, if_false]
  rw [← hv]
  obtain ⟨d, m', hrev, hd⟩ := headNotSpace_elim h2
  exact trimRight_of_last hrev hd

theorem headNotSpace_rev_append {pre w : List Char} (h : headNotSpace w.reverse = true) :
    headNotSpace (pre ++ w).reverse = true := by
  obtain ⟨d, m', hrev, hd⟩ := headNotSpace_elim h
  rw [List.reverse_append, hrev]
  exact headNotSpace_cons _ hd

theorem findOcc_none_of_containsSub_false {pat l : List Char}
    (h : containsSub pat l = false) : findOcc pat l = none := by
  unfold containsSub at h
  cases hf : findOcc pat l with
  | none => rfl
  | some ba => rw [hf] at h; simp at h

theorem containsSub_false_of_findOcc_none {pat l : List Char}
    (h : findOcc pat l = none) : containsSub pat l = false := by
  unfold containsSub
  rw [h]
  rfl

/-- The `line.replace('- ', '').strip()` normalization is the identity
on a rendered label line with a clean value. -/
theorem normLine_eq {label v : List Char} (hv : cleanVal v = true)
    (h1 : containsSub dashSp (label ++ [' ']) = false)
    (h3 : noSpan dashSp (label ++ [' ']) = true)
    (hh : headNotSpace label = true) :
    pyStrip (removeSub dashSp (label ++ ' ' :: v)) = label ++ ' ' :: v := by
  have hassoc : label ++ ' ' :: v = (label ++ [' ']) ++ v :=
    (List.append_assoc label [' '] v).symm
  have hnone : findOcc dashSp (label ++ ' ' :: v) = none := by
    rw [hassoc]
    exact findOcc_none_of_containsSub_false
      (containsSub_append_false (by decide) h1
        (containsSub_false_of_findOcc_none (cleanVal_no_dashSp hv)) h3)
  rw [removeSub_of_none hnone]
  obtain ⟨c, m, hl, hc⟩ := headNotSpace_elim hh
  apply pyStrip_eq_self
  · rw [hl]
    exact headNotSpace_cons _ hc
  · rw [hassoc]
    exact headNotSpace_rev_append (cleanVal_rev hv)

/-- The extraction `line.split(label)[1].strip()` recovers the clean value on a
rendered label line. -/
theorem split_label_line {label v : List Char} (hlab : label ≠ [])
    (hcolon : ':' ∈ label) (hv : cleanVal v = true) :
    pyStrip ((splitSub label (label ++ ' ' :: v)).getD 1 []) = v := by
  have hf1 : findOcc label (label ++ ' ' :: v) = some ([], ' ' :: v) := findOcc_self hlab
  have hf2 : findOcc label (' ' :: v) = none :=
    findOcc_none_of_containsSub_false
      (containsSub_false_of_not_mem hlab hcolon (colon_not_mem_space_cons hv))
  rw [splitSub_of_some hlab hf1, splitSub_of_none hf2]
  show pyStrip (' ' :: v) = v
  exact pyStrip_space_cons (cleanVal_head hv) (cleanVal_rev hv)

/-! ### One-line characterizations of the accumulator loop -/

theorem stepCore_title {songs : List Song} {cur : Accum} {v : List Char}
    (hv : cleanVal v = true) :
    stepCore (songs, cur) (labelT ++ ' ' :: v) =
      if accumNonempty cur && accumComplete cur then
        (songs ++ [finishSong cur], { emptyAcc with title := some v })
      else (songs, { cur with title := some v }) := by
  have hT : containsSub labelT (labelT ++ ' ' :: v) = true :=
    containsSub_self_append (by decide)
  have hval := @split_label_line labelT _ (by decide) (by decide) hv
  unfold stepCore
  rw [if_pos hT, hval]
  by_cases hc : (accumNonempty cur && accumComplete cur) = true
  · rw [if_pos hc, if_pos hc]
  · rw [if_neg hc, if_neg hc]

theorem stepCore_artist {songs : List Song} {cur : Accum} {v : List Char}
    (hv : cleanVal v = true) :
    stepCore (songs, cur) (labelA ++ ' ' :: v) = (songs, { cur with artist := some v }) := by
  have hassoc : labelA ++ ' ' :: v = (labelA ++ [' ']) ++ v :=
    (List.append_assoc labelA [' '] v).symm
  have hT : containsSub labelT (labelA ++ ' ' :: v) = false := by
    rw [hassoc]
    exact containsSub_append_false (by decide) (by decide)
      (containsSub_false_of_not_mem (by decide) (by decide) (cleanVal_no_colon hv)) (by decide)
  have hA : containsSub labelA (labelA ++ ' ' :: v) = true :=
    containsSub_self_append (by decide)
  have hval := @split_label_line labelA _ (by decide) (by decide) hv
  unfold stepCore
  rw [if_neg (by simp [hT]), if_pos hA, hval]

theorem stepCore_genre {songs : List Song} {cur : Accum} {v : List Char}
    (hv : cleanVal v = true) :
    stepCore (songs, cur) (labelG ++ ' ' :: v) = (songs, { cur with genre := some v }) := by
  have hassoc : labelG ++ ' ' :: v = (labelG ++ [' ']) ++ v :=
    (List.append_assoc labelG [' '] v).symm
  have hT : containsSub labelT (labelG ++ ' ' :: v) = false := by
    rw [hassoc]
    exact containsSub_append_false (by decide) (by decide)
      (containsSub_false_of_not_mem (by decide) (by decide) (cleanVal_no_colon hv)) (by decide)
  have hA : containsSub labelA (labelG ++ ' ' :: v) = false := by
    rw [hassoc]
    exact containsSub_append_false (by decide) (by decide)
      (containsSub_false_of_not_mem (by decide) (by decide) (cleanVal_no_colon hv)) (by decide)
  have hG : containsSub labelG (labelG ++ ' ' :: v) = true :=
    containsSub_self_append (by decide)
  have hval := @split_label_line labelG _ (by decide) (by decide) hv
  unfold stepCore
  rw [if_neg (by simp [hT]), if_neg (by simp [hA]), if_pos hG, hval]

theorem stepCore_pop {songs : List Song} {cur : Accum} {v : List Char}
    (hv : cleanVal v = true) :
    stepCore (songs, cur) (labelP ++ ' ' :: v) =
      (songs, { cur with popularity := some (popParsed v) }) := by
  have hassoc : labelP ++ ' ' :: v = (labelP ++ [' ']) ++ v :=
    (List.append_assoc labelP [' '] v).symm
  have hT : containsSub labelT (labelP ++ ' ' :: v) = false := by
    rw [hassoc]
    exact containsSub_append_false (by decide) (by decide)
      (containsSub_false_of_not_mem (by decide) (by decide) (cleanVal_no_colon hv)) (by decide)
  have hA : containsSub labelA (labelP ++ ' ' :: v) = false := by
    rw [hassoc]
    exact containsSub_append_false (by decide) (by decide)
      (containsSub_false_of_not_mem (by decide) (by decide) (cleanVal_no_colon hv)) (by decide)
  have hG : containsSub labelG (labelP ++ ' ' :: v) = false := by
    rw [hassoc]
    exact containsSub_append_false (by decide) (by decide)
      (containsSub_false_of_not_mem (by decide) (by decide) (cleanVal_no_colon hv)) (by decide)
  have hP : containsSub labelP (labelP ++ ' ' :: v) = true :=
    containsSub_self_append (by decide)
  have hval := @split_label_line labelP _ (by decide) (by decide) hv
  unfold stepCore
  rw [if_neg (by simp [hT]), if_neg (by simp [hA]), if_neg (by simp [hG]), if_pos hP, hval]

/-- On a rendered label line with a clean value, the loop body reduces
to its core (the `replace`/`strip` normalization is the identity). -/
theorem stepLine_eq_core {st : List Song × Accum} {label v : List Char}
    (hv : cleanVal v = true)
    (h1 : containsSub dashSp (label ++ [' ']) = false)
    (h3 : noSpan dashSp (label ++ [' ']) = true)
    (hh : headNotSpace label = true) :
    stepLine st (label ++ ' ' :: v) = stepCore st (label ++ ' ' :: v) := by
  unfold stepLine
  rw [normLine_eq hv h1 h3 hh]

theorem stepLine_title {songs : List Song} {cur : Accum} {v : List Char}
    (hv : cleanVal v = true) :
    stepLine (songs, cur) (labelT ++ ' ' :: v) =
      if accumNonempty cur && accumComplete cur then
        (songs ++ [finishSong cur], { emptyAcc with title := some v })
      else (songs, { cur with title := some v }) := by
  rw [stepLine_eq_core hv (by decide) (by decide) (by decide)]
  exact stepCore_title hv

theorem stepLine_artist {songs : List Song} {cur : Accum} {v : List Char}
    (hv : cleanVal v = true) :
    stepLine (songs, cur) (labelA ++ ' ' :: v) = (songs, { cur with artist := some v }) := by
  rw [stepLine_eq_core hv (by decide) (by decide) (by decide)]
  exact stepCore_artist hv

theorem stepLine_genre {songs : List Song} {cur : Accum} {v : List Char}
    (hv : cleanVal v = true) :
    stepLine (songs, cur) (labelG ++ ' ' :: v) = (songs, { cur with genre := some v }) := by
  rw [stepLine_eq_core hv (by decide) (by decide) (by decide)]
  exact stepCore_genre hv

theorem stepLine_pop {songs : List Song} {cur : Accum} {v : List Char}
    (hv : cleanVal v = true) :
    stepLine (songs, cur) (labelP ++ ' ' :: v) =
      (songs, { cur with popularity := some (popParsed v) }) := by
  rw [stepLine_eq_core hv (by decide) (by decide) (by decide)]
  exact stepCore_pop hv

/-! ### Rendered song blocks and the round-trip through the parser -/

/-- A complete song block of the line-labelled format: title, artist
and genre always present, popularity optionally so. -/
structure Block where
  title : List Char
  artist : List Char
  genre : List Char
  pop : Option (List Char)
deriving DecidableEq

/-- All field values of the block are clean. -/
def cleanBlock (b : Block) : Bool :=
  cleanVal b.title && cleanVal b.artist && cleanVal b.genre &&
  (match b.pop with
   | none => true
   | some w => cleanVal w)

/-- The rendered lines of one block. -/
def blockLines (b : Block) : List (List Char) :=
  [labelT ++ ' ' :: b.title, labelA ++ ' ' :: b.artist, labelG ++ ' ' :: b.genre] ++
    (match b.pop with
     | none => []
     | some w => [labelP ++ ' ' :: w])

/-- The rendered lines of a list of blocks. -/
def blockLinesAll (bs : List Block) : List (List Char) :=
  bs.foldr (fun b acc => blockLines b ++ acc) []

/-- Join lines with newlines. -/
def joinNL : List (List Char) → List Char
  | [] => []
  | [l] => l
  | l :: ls => l ++ '\n' :: joinNL ls

/-- The full rendered response text of a list of blocks. -/
def renderBlocks (bs : List Block) : String := String.mk (joinNL (blockLinesAll bs))

/-- The popularity the parser assigns to a block. -/
def popOfBlock (b : Block) : ℚ :=
  match b.pop with
  | none => mkRat 1 2
  | some w => popParsed w

/-- The `Song` a block produces. -/
def songOfBlock (b : Block) : Song :=
  { title := String.mk b.title
    artist := String.mk b.artist
    genre := String.mk b.genre
    popularity := popOfBlock b }

/-- The accumulator state after all lines of a block have been read. -/
def fullAcc (b : Block) : Accum :=
  { title := some b.title
    artist := some b.artist
    genre := some b.genre
    popularity :=
      match b.pop with
      | none => none
      | some w => some (popParsed w) }

/-- The songs flushed out of an accumulator state. -/
def emitA (a : Accum) : List Song :=
  if accumNonempty a && accumComplete a then [finishSong a] else []

/-- Between blocks the accumulator is either empty or the full state of
the previous block. -/
def AccBetween (cur : Accum) : Prop :=
  cur = emptyAcc ∨ ∃ b, cleanBlock b = true ∧ cur = fullAcc b

theorem cleanBlock_parts {b : Block} (hb : cleanBlock b = true) :
    cleanVal b.title = true ∧ cleanVal b.artist = true ∧ cleanVal b.genre = true ∧
      ∀ w, b.pop = some w → cleanVal w = true := by
  simp only [cleanBlock, Bool.and_eq_true] at hb
  refine ⟨hb.1.1.1, hb.1.1.2, hb.1.2, fun w hw => ?_⟩
  have hp := hb.2
  rw [hw] at hp
  simpa using hp

theorem finishPass_eq (st : List Song × Accum) : finishPass st = st.1 ++ emitA st.2 := by
  unfold finishPass emitA
  split_ifs <;> simp

theorem flushCond_fullAcc (b : Block) :
    (accumNonempty (fullAcc b) && accumComplete (fullAcc b)) = true := by
  simp [fullAcc, accumNonempty, accumComplete]

theorem finishSong_fullAcc (b : Block) : finishSong (fullAcc b) = songOfBlock b := by
  unfold finishSong fullAcc songOfBlock popOfBlock
  cases hbp : b.pop <;> simp

theorem emitA_emptyAcc : emitA emptyAcc = [] := rfl

theorem emitA_fullAcc (b : Block) : emitA (fullAcc b) = [songOfBlock b] := by
  unfold emitA
  rw [if_pos (flushCond_fullAcc b), finishSong_fullAcc]

/-- Reading one rendered block flushes the pending accumulator and
leaves the block's full state. -/
theorem foldl_block {b : Block} (hb : cleanBlock b = true) (songs : List Song) {cur : Accum}
    (hcur : AccBetween cur) :
    (blockLines b).foldl stepLine (songs, cur) = (songs ++ emitA cur, fullAcc b) := by
  obtain ⟨h1, h2, h3, h4⟩ := cleanBlock_parts hb
  have hstep1 : stepLine (songs, cur) (labelT ++ ' ' :: b.title)
      = (songs ++ emitA cur, { emptyAcc with title := some b.title }) := by
    rcases hcur with rfl | ⟨b', hb', rfl⟩
    · rw [stepLine_title h1, if_neg (by decide)]
      simp [emitA_emptyAcc]
    · rw [stepLine_title h1, if_pos (flushCond_fullAcc b'), emitA_fullAcc, finishSong_fullAcc]
  cases hbp : b.pop with
  | none =>
    show List.foldl stepLine (songs, cur)
        ([labelT ++ ' ' :: b.title, labelA ++ ' ' :: b.artist, labelG ++ ' ' :: b.genre] ++
          (match b.pop with | none => [] | some w => [labelP ++ ' ' :: w])) = _
    rw [hbp]
    simp only [List.append_nil, List.foldl_cons, List.foldl_nil]
    rw [hstep1, stepLine_artist h2, stepLine_genre h3]
    unfold fullAcc emptyAcc
    rw [hbp]
  | some w =>
    show List.foldl stepLine (songs, cur)
        ([labelT ++ ' ' :: b.title, labelA ++ ' ' :: b.artist, labelG ++ ' ' :: b.genre] ++
          (match b.pop with | none => [] | some w => [labelP ++ ' ' :: w])) = _
    rw [hbp]
    simp only [List.cons_append, List.nil_append, List.foldl_cons, List.foldl_nil]
    rw [hstep1, stepLine_artist h2, stepLine_genre h3, stepLine_pop (h4 w hbp)]
    unfold fullAcc emptyAcc
    rw [hbp]

/-- Reading all rendered blocks and flushing yields exactly one song
per block, in order. -/
theorem foldl_blocks : ∀ (bs : List Block), bs.all cleanBlock = true →
    ∀ (songs : List Song) (cur : Accum), AccBetween cur →
    finishPass ((blockLinesAll bs).foldl stepLine (songs, cur))
      = songs ++ emitA cur ++ bs.map songOfBlock := by
  intro bs
  induction bs with
  | nil =>
    intro _ songs cur hcur
    show finishPass (songs, cur) = songs ++ emitA cur ++ []
    rw [finishPass_eq, List.append_nil]
  | cons b bs ih =>
    intro hall songs cur hcur
    have hparts : cleanBlock b = true ∧ bs.all cleanBlock = true := by simpa using hall
    show finishPass ((blockLines b ++ blockLinesAll bs).foldl stepLine (songs, cur)) = _
    rw [List.foldl_append, foldl_block hparts.1 songs hcur,
      ih hparts.2 (songs ++ emitA cur) (fullAcc b) (Or.inr ⟨b, hparts.1, rfl⟩),
      emitA_fullAcc]
    simp [List.append_assoc]

/-- A line that survives the `[line.strip() for line in ... if line.strip()]`
preparation unchanged. -/
def goodLine (l : List Char) : Prop := '\n' ∉ l ∧ pyStrip l = l ∧ l ≠ []

theorem goodLine_label {label v : List Char} (hv : cleanVal v = true)
    (hlab : '\n' ∉ label) (hh : headNotSpace label = true) :
    goodLine (label ++ ' ' :: v) := by
  refine ⟨?_, ?_, ?_⟩
  · intro hmem
    rcases List.mem_append.1 hmem with h | h
    · exact hlab h
    · rcases List.mem_cons.1 h with h | h
      · simp at h
      · exact cleanVal_no_newline hv h
  · obtain ⟨c, m, hl, hc⟩ := headNotSpace_elim hh
    apply pyStrip_eq_self
    · rw [hl]
      exact headNotSpace_cons _ hc
    · rw [show label ++ ' ' :: v = (label ++ [' ']) ++ v from
        (List.append_assoc label [' '] v).symm]
      exact headNotSpace_rev_append (cleanVal_rev hv)
  · intro h
    have hlen := congrArg List.length h
    simp [List.length_append] at hlen

theorem goodLine_block {b : Block} (hb : cleanBlock b = true) :
    ∀ l ∈ blockLines b, goodLine l := by
  obtain ⟨h1, h2, h3, h4⟩ := cleanBlock_parts hb
  intro l hl
  unfold blockLines at hl
  cases hbp : b.pop with
  | none =>
    rw [hbp] at hl
    simp only [List.append_nil, List.mem_cons, List.not_mem_nil, or_false] at hl
    rcases hl with rfl | rfl | rfl
    · exact goodLine_label h1 (by decide) (by decide)
    · exact goodLine_label h2 (by decide) (by decide)
    · exact goodLine_label h3 (by decide) (by decide)
  | some w =>
    rw [hbp] at hl
    simp only [List.cons_append, List.nil_append, List.mem_cons, List.not_mem_nil,
      or_false] at hl
    rcases hl with rfl | rfl | rfl | rfl
    · exact goodLine_label h1 (by decide) (by decide)
    · exact goodLine_label h2 (by decide) (by decide)
    · exact goodLine_label h3 (by decide) (by decide)
    · exact goodLine_label (h4 w hbp) (by decide) (by decide)

theorem goodLine_blocksAll {bs : List Block} (hbs : bs.all cleanBlock = true) :
    ∀ l ∈ blockLinesAll bs, goodLine l := by
  induction bs with
  | nil => intro l hl; simp [blockLinesAll] at hl
  | cons b bs ih =>
    have hparts : cleanBlock b = true ∧ bs.all cleanBlock = true := by simpa using hbs
    intro l hl
    rcases List.mem_append.1 hl with h | h
    · exact goodLine_block hparts.1 l h
    · exact ih hparts.2 l h

/-- Splitting, stripping and filtering the newline join of good lines
recovers exactly those lines. -/
theorem parseLines_joinNL : ∀ (L : List (List Char)), L ≠ [] →
    (∀ l ∈ L, goodLine l) → parseLines (joinNL L) = L := by
  intro L
  induction L with
  | nil => intro h; exact absurd rfl h
  | cons l ls ih =>
    intro _ hgood
    have hl := hgood l (List.mem_cons_self l ls)
    cases ls with
    | nil =>
      show parseLines (joinNL [l]) = [l]
      unfold parseLines
      have hno : findOcc ['\n'] l = none :=
        findOcc_none_of_containsSub_false
          (containsSub_false_of_not_mem (by decide) (List.mem_singleton_self '\n') hl.1)
      rw [show joinNL [l] = l from rfl, splitSub_of_none hno]
      simp only [List.map_cons, List.map_nil, hl.2.1]
      rw [List.filter_cons]
      have : (!l.isEmpty) = true := by
        cases hc : l with
        | nil => exact absurd hc hl.2.2
        | cons c m => rfl
      rw [if_pos this]
      rfl
    | cons m rest =>
      show parseLines (joinNL (l :: m :: rest)) = l :: m :: rest
      unfold parseLines
      rw [show joinNL (l :: m :: rest) = l ++ '\n' :: joinNL (m :: rest) from rfl]
      have hocc : findOcc ['\n'] (l ++ '\n' :: joinNL (m :: rest))
          = some (l, joinNL (m :: rest)) := findOcc_single hl.1
      rw [splitSub_of_some (by decide) hocc]
      simp only [List.map_cons, hl.2.1]
      rw [List.filter_cons]
      have hne : (!l.isEmpty) = true := by
        cases hc : l with
        | nil => exact absurd hc hl.2.2
        | cons c m' => rfl
      rw [if_pos hne]
      have := ih (by simp) (fun x hx => hgood x (List.mem_cons_of_mem l hx))
      unfold parseLines at this
      rw [this]

/-- The primary pass maps rendered clean blocks to their songs,
one-for-one and in order. -/
theorem parsePass1_blocks {bs : List Block} (hbs : bs.all cleanBlock = true)
    (hne : bs ≠ []) :
    parsePass1 (renderBlocks bs).data = bs.map songOfBlock := by
  show parsePass1 (joinNL (blockLinesAll bs)) = bs.map songOfBlock
  unfold parsePass1
  have hlne : blockLinesAll bs ≠ [] := by
    cases bs with
    | nil => exact absurd rfl hne
    | cons b bs' =>
      show blockLines b ++ blockLinesAll bs' ≠ []
      unfold blockLines
      simp
  rw [parseLines_joinNL (blockLinesAll bs) hlne (goodLine_blocksAll hbs)]
  rw [foldl_blocks bs hbs [] emptyAcc (Or.inl rfl)]
  rw [emitA_emptyAcc]
  rfl

/-- With at most 25 clean blocks, the whole parser output is just the
per-block songs, sorted by descending popularity. -/
theorem parsePlaylistResponse_blocks {bs : List Block} (hbs : bs.all cleanBlock = true)
    (hne : bs ≠ []) (hlen : bs.length ≤ 25) :
    parsePlaylistResponse (renderBlocks bs)
      = List.insertionSort popGE (bs.map songOfBlock) := by
  rw [parsePlaylistResponse_eq]
  unfold chosenSongs
  rw [parsePass1_blocks hbs hne]
  have hmapne : (bs.map songOfBlock).isEmpty = false := by
    cases bs with
    | nil => exact absurd rfl hne
    | cons b bs' => rfl
  rw [if_neg (by simp [hmapne])]
  apply List.take_of_length_le
  rw [length_sortDesc, List.length_map]
  exact hlen

/-! ### Claim theorems: C1, C3 -/

/-- Claim C1: for every line-oriented input text containing N complete
song blocks (each block supplying clean title, artist and genre values,
with N at most 25), the parser returns exactly N Song records, ordered
by descending popularity. -/
theorem c1_blocks_roundtrip (bs : List Block) (hbs : bs.all cleanBlock = true)
    (hlen : bs.length ≤ 25) :
    (parsePlaylistResponse (renderBlocks bs)).length = bs.length ∧
      List.Pairwise popGE (parsePlaylistResponse (renderBlocks bs)) := by
  refine ⟨?_, ?_⟩
  · by_cases hne : bs = []
    · subst hne
      decide
    · rw [parsePlaylistResponse_blocks hbs hne hlen, length_sortDesc, List.length_map]
  · rw [parsePlaylistResponse_eq]
    exact (pairwise_sortDesc _).sublist (List.take_sublist _ _)

/-- Two concrete clean blocks used as the C1 witness input. -/
def exBlocks : List Block :=
  [ { title := "Hey Jude".data, artist := "The Beatles".data, genre := "Rock".data,
      pop := some "0.95".data }
  , { title := "Milonga Triste".data, artist := "Hugo Diaz".data, genre := "Folk".data,
      pop := none } ]

/-- Witness for C1 at two concrete blocks. -/
theorem c1_blocks_roundtrip_witness :
    exBlocks.all cleanBlock = true ∧ exBlocks.length ≤ 25 ∧
      (parsePlaylistResponse (renderBlocks exBlocks)).length = exBlocks.length ∧
      List.Pairwise popGE (parsePlaylistResponse (renderBlocks exBlocks)) := by
  have h1 : exBlocks.all cleanBlock = true := by decide
  have h2 : exBlocks.length ≤ 25 := by decide
  exact ⟨h1, h2, (c1_blocks_roundtrip exBlocks h1 h2).1, (c1_blocks_roundtrip exBlocks h1 h2).2⟩

/-- Claim C3: in line-oriented parsing, every emitted Song whose input
block lacked a Popularity field, or whose Popularity field text could
not be parsed as a number (the text is outside the domain of Python
`float`, which therefore raises), has popularity exactly 0.5. -/
theorem c3_default_popularity (bs : List Block) (b : Block)
    (hbs : bs.all cleanBlock = true) (hlen : bs.length ≤ 25) (hmem : b ∈ bs)
    (hpop : b.pop = none ∨ ∃ w, b.pop = some w ∧ pyFloatAccepts w = false) :
    songOfBlock b ∈ parsePlaylistResponse (renderBlocks bs) ∧
      (songOfBlock b).popularity = mkRat 1 2 := by
  have hne : bs ≠ [] := by
    rintro rfl
    exact List.not_mem_nil b hmem
  constructor
  · rw [parsePlaylistResponse_blocks hbs hne hlen]
    exact mem_sortDesc.2 (List.mem_map_of_mem songOfBlock hmem)
  · show popOfBlock b = mkRat 1 2
    unfold popOfBlock
    rcases hpop with h | ⟨w, hw, hfw⟩
    · rw [h]
    · rw [hw]
      show popParsed w = mkRat 1 2
      have hnone : pyFloat w = none := by
        simp [pyFloat, hfw]
      unfold popParsed
      rw [hnone]

/-- A block with no Popularity line. -/
def exBlockNoPop : Block :=
  { title := "Milonga Triste".data, artist := "Hugo Diaz".data, genre := "Folk".data,
    pop := none }

/-- A block whose Popularity text is not a number. -/
def exBlockBadPop : Block :=
  { title := "Blue in Green".data, artist := "Miles Davis".data, genre := "Jazz".data,
    pop := some "unknown".data }

/-- The C3 witness input: one parsable, one absent, one unparsable
popularity. -/
def exBlocksC3 : List Block :=
  [ { title := "Hey Jude".data, artist := "The Beatles".data, genre := "Rock".data,
      pop := some "0.95".data }
  , exBlockNoPop
  , exBlockBadPop ]

/-- Witness for C3: the block without a Popularity line and the block
with unparsable popularity text both come out with popularity 0.5. -/
theorem c3_default_popularity_witness :
    exBlocksC3.all cleanBlock = true ∧ exBlockNoPop ∈ exBlocksC3 ∧
      (songOfBlock exBlockNoPop ∈ parsePlaylistResponse (renderBlocks exBlocksC3) ∧
        (songOfBlock exBlockNoPop).popularity = mkRat 1 2) ∧
      (songOfBlock exBlockBadPop ∈ parsePlaylistResponse (renderBlocks exBlocksC3) ∧
        (songOfBlock exBlockBadPop).popularity = mkRat 1 2) := by
  have h1 : exBlocksC3.all cleanBlock = true := by decide
  have h2 : exBlocksC3.length ≤ 25 := by decide
  refine ⟨h1, by decide, ?_, ?_⟩
  · exact c3_default_popularity exBlocksC3 exBlockNoPop h1 h2 (by decide) (Or.inl rfl)
  · exact c3_default_popularity exBlocksC3 exBlockBadPop h1 h2 (by decide)
      (Or.inr ⟨"unknown".data, rfl, by decide⟩)

/-! ### Claim theorems: C4, C10, C9 -/

theorem stepCore_no_emit {st : List Song × Accum} {line : List Char}
    (h : accumComplete st.2 = false) : (stepCore st line).1 = st.1 := by
  obtain ⟨songs, cur⟩ := st
  unfold stepCore
  split_ifs with h1 h2
  · exact absurd h2 (by simp [h])
  · rfl
  · rfl
  · rfl
  · rfl
  · rfl

/-- C4 counterexample input: the first block never receives a genre, so
by the claim its partial artist "X" should be discarded; instead it is
combined with the second block. -/
def exC4 : String := "Title: A\nArtist: X\nTitle: B\nGenre: G"

/-- Counterexample to claim C4 as stated: the output song titled "B"
carries the artist "X" accumulated for the abandoned first block
(title "A"), so the partial data of an incomplete accumulator is
propagated into another output record rather than discarded. -/
theorem c4_partial_propagates_counterexample :
    parsePlaylistResponse exC4
      = [{ title := "B", artist := "X", genre := "G", popularity := mkRat 1 2 }] := by
  decide

/-- Claim C4 (amended): a song accumulator missing any of the three
mandatory fields is never flushed to the output list — neither by a
loop step nor by the final flush; however, its partial data is retained
in the accumulator (see C10) rather than discarded. -/
theorem c4_incomplete_never_emitted (songs : List Song) (cur : Accum) (line : List Char)
    (h : accumComplete cur = false) :
    (stepLine (songs, cur) line).1 = songs ∧ finishPass (songs, cur) = songs := by
  refine ⟨@stepCore_no_emit (songs, cur) (pyStrip (removeSub dashSp line)) h, ?_⟩
  unfold finishPass
  rw [if_neg (by simp [h])]

/-- A concrete incomplete accumulator: title and artist set, no genre. -/
def accAX : Accum :=
  { title := some ['A'], artist := some ['X'], genre := none, popularity := none }

/-- Witness for the amended C4 at a concrete incomplete accumulator. -/
theorem c4_incomplete_never_emitted_witness :
    (stepLine ([], accAX) (labelG ++ [' '])).1 = [] ∧ finishPass ([], accAX) = [] :=
  c4_incomplete_never_emitted [] accAX _ (by decide)

/-- C10 witness input: the genre accumulated for the abandoned first
block (title "A") survives the second `Title:` line and is combined
with the later artist into the emitted record. -/
def exC10 : String := "Title: A\nGenre: G\nTitle: B\nArtist: X"

/-- Claim C10: when a `Title:` line arrives while the accumulator is
incomplete, the accumulator is not cleared — only the title field is
overwritten — so an emitted Song can combine fields from different
input blocks, as the concrete run on `exC10` shows. -/
theorem c10_partial_persists :
    (∀ (songs : List Song) (cur : Accum) (v : List Char), cleanVal v = true →
        accumComplete cur = false →
        stepLine (songs, cur) (labelT ++ ' ' :: v) = (songs, { cur with title := some v })) ∧
    parsePlaylistResponse exC10
      = [{ title := "B", artist := "X", genre := "G", popularity := mkRat 1 2 }] := by
  constructor
  · intro songs cur v hv h
    rw [stepLine_title hv, if_neg (by simp [h])]
  · decide

/-- A concrete incomplete accumulator: title and genre set, no artist. -/
def accAG : Accum :=
  { title := some ['A'], artist := none, genre := some ['G'], popularity := none }

/-- Witness for C10: a title line overwrites only the title; the genre
accumulated earlier stays. -/
theorem c10_partial_persists_witness :
    stepLine ([], accAG) (labelT ++ ' ' :: ['B']) = ([], { accAG with title := some ['B'] }) := by
  have h := c10_partial_persists.1 [] accAG ['B'] (by decide) (by decide)
  exact h

theorem findOcc_dashSp_label {label v : List Char} (hv : cleanVal v = true)
    (h1 : containsSub dashSp (label ++ [' ']) = false)
    (h3 : noSpan dashSp (label ++ [' ']) = true) :
    findOcc dashSp (label ++ ' ' :: v) = none := by
  rw [show label ++ ' ' :: v = (label ++ [' ']) ++ v from
    (List.append_assoc label [' '] v).symm]
  exact findOcc_none_of_containsSub_false
    (containsSub_append_false (by decide) h1
      (containsSub_false_of_findOcc_none (cleanVal_no_dashSp hv)) h3)

/-- C9 counterexample input: the title value contains an embedded
`'- '`. -/
def exC9 : String := "- Title: A - B\n- Artist: X\n- Genre: G"

/-- Counterexample to claim C9 as stated: `line.replace('- ', '')`
deletes every occurrence of dash-space, not only a leading marker, so
the field value `"A - B"` is altered to `"A B"` instead of being left
unchanged. -/
theorem c9_marker_strip_counterexample :
    parsePlaylistResponse exC9
      = [{ title := "A B", artist := "X", genre := "G", popularity := mkRat 1 2 }] ∧
      ("A B" : String) ≠ "A - B" := by
  decide

/-- Claim C9 (amended): before label matching the parser deletes every
occurrence of `'- '` from the line; in particular a leading `'- '`
marker is removed, and a clean field value (one containing no `'- '`)
is extracted unchanged, exactly as in the Yesterday example. -/
theorem c9_replace_all_marker :
    (∀ (st : List Song × Accum) (v : List Char), cleanVal v = true →
        stepLine st ('-' :: ' ' :: (labelT ++ ' ' :: v)) = stepLine st (labelT ++ ' ' :: v)) ∧
    parsePlaylistResponse exYesterday
      = [{ title := "Yesterday", artist := "The Beatles", genre := "Rock",
           popularity := mkRat 9 10 }] := by
  constructor
  · intro st v hv
    unfold stepLine
    have hline : findOcc dashSp (labelT ++ ' ' :: v) = none :=
      findOcc_dashSp_label hv (by decide) (by decide)
    have h0 : findOcc dashSp ('-' :: ' ' :: (labelT ++ ' ' :: v))
        = some ([], labelT ++ ' ' :: v) := by
      rw [findOcc_cons_pos (by simp [dashSp, List.isPrefixOf, isPrefixOf_nil_left])]
      rfl
    rw [removeSub_step h0 hline, removeSub_of_none hline, List.nil_append]
  · decide

/-- Witness for the amended C9: the dashed and undashed Yesterday title
lines produce the same step. -/
theorem c9_replace_all_marker_witness :
    stepLine ([], emptyAcc) ('-' :: ' ' :: (labelT ++ ' ' :: "Yesterday".data))
      = stepLine ([], emptyAcc) (labelT ++ ' ' :: "Yesterday".data) :=
  c9_replace_all_marker.1 ([], emptyAcc) "Yesterday".data (by decide)

theorem findOcc_extend {pat t r : List Char}
    (h : findOcc pat (t ++ pat) = some (t, [])) :
    findOcc pat (t ++ pat ++ r) = some (t, r) := by
  induction t with
  | nil =>
    cases hp : pat with
    | nil =>
      rw [hp] at h
      simp [findOcc] at h
    | cons c ps =>
      subst hp
      show findOcc (c :: ps) ((c :: ps) ++ r) = some ([], r)
      exact findOcc_self (by simp)
  | cons c t' ih =>
    have hcons : (c :: t') ++ pat = c :: (t' ++ pat) := rfl
    rw [hcons] at h
    cases hq : List.isPrefixOf pat (c :: (t' ++ pat)) with
    | true =>
      rw [findOcc_cons_pos hq] at h
      simp at h
    | false =>
      rw [findOcc_cons_neg hq] at h
      cases hf : findOcc pat (t' ++ pat) with
      | none =>
        rw [hf] at h
        simp at h
      | some ba =>
        obtain ⟨b', a'⟩ := ba
        rw [hf] at h
        simp only [Option.some.injEq, Prod.mk.injEq, List.cons.injEq] at h
        obtain ⟨⟨-, hb⟩, ha⟩ := h
        rw [hb, ha] at hf
        have hext := ih hf
        have hcons2 : (c :: t') ++ pat ++ r = c :: (t' ++ pat ++ r) := rfl
        rw [hcons2]
        have hq2 : List.isPrefixOf pat (c :: (t' ++ pat ++ r)) = false := by
          have hlen : pat.length ≤ (c :: (t' ++ pat)).length := by
            simp [List.length_append]
            omega
          have hsplit : c :: (t' ++ pat ++ r) = (c :: (t' ++ pat)) ++ r := by
            simp [List.append_assoc]
          rw [hsplit, isPrefixOf_append_of_le r hlen, hq]
        rw [findOcc_cons_neg hq2, hext]

/-! ### Claim theorems: C8 -/

/-- Modelled from the spec: "stripping leading numbering/punctuation
from the title" — a strip that removes the numbering characters from
the left end only.  Used to compare the specified behaviour with the
source's two-sided `strip('0123456789.- ')`. -/
def specStripLeading (cs l : List Char) : List Char := l.dropWhile (fun c => cs.contains c)

/-- C8 counterexample input: a fallback line whose title ends in a
numbering character. -/
def exC8 : String := "3. Formula 1 by X (Pop)"

/-- Counterexample to claim C8 as stated: on the title text
`"3. Formula 1"`, stripping leading numbering/punctuation gives
`"Formula 1"`, but the code's two-sided `strip('0123456789.- ')`
produces `"Formula"`: the trailing ` 1` is removed as well. -/
theorem c8_fallback_counterexample :
    parsePlaylistResponse exC8
      = [{ title := "Formula", artist := "X", genre := "Pop", popularity := mkRat 1 2 }] ∧
      specStripLeading numChars "3. Formula 1".data = "Formula 1".data ∧
      ("Formula" : String) ≠ "Formula 1" := by
  decide

theorem chosenSongs_of_pass1_ne {s : String} (h : parsePass1 s.data ≠ []) :
    chosenSongs s = parsePass1 s.data := by
  unfold chosenSongs
  rw [if_neg (by simp [List.isEmpty_iff, h])]

theorem chosenSongs_of_pass1_nil {s : String} (h : parsePass1 s.data = []) :
    chosenSongs s = fallbackPass s.data := by
  unfold chosenSongs
  rw [if_pos (by simp [List.isEmpty_iff, h])]

/-- Claim C8 (amended): the fallback heuristic runs exactly when the
primary pass yields zero songs, its results are never mixed with
primary-pass results, every fallback song has popularity 0.5, and on a
well-formed `<title> by <artist> (<genre>)` line it emits one Song
whose title is the code's two-sided numbering strip of the title text
(leading AND trailing `0-9.- ` characters removed). -/
theorem c8_fallback_amended :
    (∀ s : String, parsePass1 s.data ≠ [] →
        ∀ x ∈ parsePlaylistResponse s, x ∈ parsePass1 s.data) ∧
    (∀ s : String, parsePass1 s.data = [] →
        ∀ x ∈ parsePlaylistResponse s, x ∈ fallbackPass s.data ∧ x.popularity = mkRat 1 2) ∧
    (∀ t a g : List Char,
        findOcc byPat (t ++ byPat) = some (t, []) →
        containsSub byPat (a ++ sParen ++ (g ++ [')'])) = false →
        findOcc sParen (a ++ sParen) = some (a, []) →
        '(' ∉ t → '(' ∉ a → '(' ∉ g → ')' ∉ g →
        fallbackLine (t ++ byPat ++ (a ++ sParen ++ (g ++ [')'])))
          = some { title := String.mk (stripSet numChars t)
                 , artist := String.mk (pyStrip a)
                 , genre := String.mk (pyStrip g)
                 , popularity := mkRat 1 2 }) := by
  refine ⟨?_, ?_, ?_⟩
  · intro s h x hx
    have hc := mem_parsePlaylistResponse hx
    rw [chosenSongs_of_pass1_ne h] at hc
    exact hc
  · intro s h x hx
    have hc := mem_parsePlaylistResponse hx
    rw [chosenSongs_of_pass1_nil h] at hc
    exact ⟨hc, fallbackPass_half s.data x hc⟩
  · intro t a g hT hRest hA hpT hpA hpG hrG
    have hbyO : findOcc byPat (t ++ byPat ++ (a ++ sParen ++ (g ++ [')'])))
        = some (t, a ++ sParen ++ (g ++ [')'])) := findOcc_extend hT
    have hby : containsSub byPat (t ++ byPat ++ (a ++ sParen ++ (g ++ [')']))) = true := by
      unfold containsSub
      rw [hbyO]
      rfl
    have hsp : containsSub sParen (t ++ byPat ++ (a ++ sParen ++ (g ++ [')']))) = true :=
      (containsSub_true_iff (by decide)).2
        ⟨t ++ byPat ++ a, g ++ [')'], by simp [List.append_assoc]⟩
    have hrp : containsSub [')'] (t ++ byPat ++ (a ++ sParen ++ (g ++ [')']))) = true :=
      (containsSub_true_iff (by decide)).2
        ⟨t ++ byPat ++ (a ++ sParen ++ g), [], by simp [List.append_assoc]⟩
    have hsplitBy : splitSub byPat (t ++ byPat ++ (a ++ sParen ++ (g ++ [')'])))
        = t :: [a ++ sParen ++ (g ++ [')'])] := by
      rw [splitSub_of_some (by decide) hbyO,
        splitSub_of_none (findOcc_none_of_containsSub_false hRest)]
    have hsplitSp : splitSub sParen (a ++ sParen ++ (g ++ [')'])) = a :: splitSub sParen (g ++ [')']) :=
      splitSub_of_some (by decide) (findOcc_extend hA)
    have hparO : findOcc ['('] (t ++ byPat ++ (a ++ sParen ++ (g ++ [')'])))
        = some (t ++ byPat ++ (a ++ [' ']), g ++ [')']) := by
      rw [show t ++ byPat ++ (a ++ sParen ++ (g ++ [')']))
          = (t ++ byPat ++ (a ++ [' '])) ++ '(' :: (g ++ [')']) from by
        simp [sParen, List.append_assoc]]
      apply findOcc_single
      intro hmem
      rcases List.mem_append.1 hmem with hmem | hmem
      · rcases List.mem_append.1 hmem with hmem | hmem
        · exact hpT hmem
        · simp [byPat] at hmem
      · rcases List.mem_append.1 hmem with hmem | hmem
        · exact hpA hmem
        · simp at hmem
    have hparNone : findOcc ['('] (g ++ [')']) = none := by
      apply findOcc_none_of_containsSub_false
      apply containsSub_false_of_not_mem (by decide) (List.mem_singleton_self '(')
      intro hmem
      rcases List.mem_append.1 hmem with hmem | hmem
      · exact hpG hmem
      · simp at hmem
    have hsplitPar : splitSub ['('] (t ++ byPat ++ (a ++ sParen ++ (g ++ [')'])))
        = (t ++ byPat ++ (a ++ [' '])) :: [g ++ [')']] := by
      rw [splitSub_of_some (by decide) hparO, splitSub_of_none hparNone]
    have hcloO : findOcc [')'] (g ++ [')']) = some (g, []) := by
      rw [show g ++ [')'] = g ++ ')' :: [] from rfl]
      exact findOcc_single hrG
    have hsplitClo : splitSub [')'] (g ++ [')']) = g :: [([] : List Char)] := by
      rw [splitSub_of_some (by decide) hcloO, splitSub_of_none (by rfl)]
    unfold fallbackLine
    rw [if_pos (by rw [hby, hsp, hrp]; rfl)]
    rw [hsplitBy, hsplitPar]
    simp only [List.getD_cons_zero, List.getD_cons_succ]
    rw [hsplitSp, hsplitClo]
    simp only [List.getD_cons_zero, List.getD_cons_succ]

/-- Witness for the amended C8 at the concrete line
`"3. Formula 1 by X (Pop)"`. -/
theorem c8_fallback_amended_witness :
    fallbackLine ("3. Formula 1".data ++ byPat ++ ("X".data ++ sParen ++ ("Pop".data ++ [')'])))
      = some { title := String.mk (stripSet numChars "3. Formula 1".data)
             , artist := String.mk (pyStrip "X".data)
             , genre := String.mk (pyStrip "Pop".data)
             , popularity := mkRat 1 2 } :=
  c8_fallback_amended.2.2 "3. Formula 1".data "X".data "Pop".data (by decide) (by decide)
    (by decide) (by decide) (by decide) (by decide) (by decide)

/-! ### Claim C6: the structured (JSON) parsing mode

The single source file of this repository variant contains only the
line-oriented parser; the structured mode belongs to the other, absent
variants.  The definitions below are therefore modelled from the
specification (section 4.3, *Structured mode*). -/

/-- The backquote character of a Markdown code fence. -/
def bq : Char := Char.ofNat 96

/-- The three-character code-fence marker. -/
def fence : List Char := [bq, bq, bq]

/-- The code-fence marker with the `json` language tag. -/
def fenceJson : List Char := [bq, bq, bq, 'j', 's', 'o', 'n']

/-- Modelled from the spec: the structured mode "treats the text as
JSON, stripping optional surrounding code-fence markers" — drop a
leading fence marker (with or without the `json` tag). -/
def dropFenceStart (l : List Char) : List Char :=
  if List.isPrefixOf fenceJson l then l.drop fenceJson.length
  else if List.isPrefixOf fence l then l.drop fence.length
  else l

/-- Modelled from the spec: drop a trailing code-fence marker. -/
def dropFenceEnd (l : List Char) : List Char :=
  if List.isPrefixOf fence.reverse l.reverse then l.take (l.length - fence.length) else l

/-- Modelled from the spec: strip optional surrounding code-fence
markers (and surrounding whitespace) from the response text. -/
def stripFencesL (l : List Char) : List Char :=
  pyStrip (dropFenceEnd (dropFenceStart (pyStrip l)))

/-- Modelled from the spec: fence stripping at the `String` level. -/
def stripFences (s : String) : String := String.mk (stripFencesL s.data)

/-- A response wrapped in code-fence markers. -/
def wrapFence (s : String) : String :=
  String.mk (fenceJson ++ '\n' :: (s.data ++ '\n' :: fence))

/-- Modelled from the spec: JSON values (the structured mode's data). -/
inductive Json where
  | null : Json
  | bool (b : Bool) : Json
  | num (q : ℚ) : Json
  | str (s : String) : Json
  | arr (elems : List Json) : Json
  | obj (fields : List (String × Json)) : Json

/-- Modelled from the spec: JSON string-body scanner with the common
escape sequences. -/
def pString : List Char → List Char → Option (List Char × List Char)
  | _, [] => none
  | acc, '"' :: r => some (acc.reverse, r)
  | acc, '\\' :: c :: r =>
    (match c with
     | '"' => some '"'
     | '\\' => some '\\'
     | '/' => some '/'
     | 'n' => some '\n'
     | 't' => some '\t'
     | 'r' => some '\r'
     | _ => none).bind (fun d => pString (d :: acc) r)
  | acc, c :: r => pString (c :: acc) r

/-- Modelled from the spec: JSON number scanner (sign, digits, optional
fractional part). -/
def pNumber (l : List Char) : Option (Json × List Char) :=
  let (neg, r) :=
    match l with
    | '-' :: r => (true, r)
    | r => (false, r)
  let ip := r.takeWhile isDigitC
  let r1 := r.dropWhile isDigitC
  if ip.isEmpty then none
  else
    match r1 with
    | '.' :: r2 =>
      let fp := r2.takeWhile isDigitC
      let r3 := r2.dropWhile isDigitC
      if fp.isEmpty then none
      else
        let q := mkRat (Int.ofNat (natOfDigits ip * 10 ^ fp.length + natOfDigits fp))
          (10 ^ fp.length)
        some (Json.num (if neg then -q else q), r3)
    | _ =>
      let q := mkRat (Int.ofNat (natOfDigits ip)) 1
      some (Json.num (if neg then -q else q), r1)

mutual

/-- Modelled from the spec: fueled recursive-descent JSON value
parser. -/
def pValue : Nat → List Char → Option (Json × List Char)
  | 0, _ => none
  | n + 1, l =>
    match trimLeft l with
    | '"' :: r => (pString [] r).map (fun sr => (Json.str (String.mk sr.1), sr.2))
    | '[' :: r =>
      (match trimLeft r with
       | ']' :: r2 => some (Json.arr [], r2)
       | _ => (pElems n r).map (fun xr => (Json.arr xr.1, xr.2)))
    | '{' :: r =>
      (match trimLeft r with
       | '}' :: r2 => some (Json.obj [], r2)
       | _ => (pMembers n r).map (fun mr => (Json.obj mr.1, mr.2)))
    | 't' :: 'r' :: 'u' :: 'e' :: r => some (Json.bool true, r)
    | 'f' :: 'a' :: 'l' :: 's' :: 'e' :: r => some (Json.bool false, r)
    | 'n' :: 'u' :: 'l' :: 'l' :: r => some (Json.null, r)
    | r => pNumber r

/-- Modelled from the spec: fueled parser for array elements. -/
def pElems : Nat → List Char → Option (List Json × List Char)
  | 0, _ => none
  | n + 1, l => do
    let (v, r) ← pValue n l
    match trimLeft r with
    | ',' :: r2 => (pElems n r2).map (fun xr => (v :: xr.1, xr.2))
    | ']' :: r2 => some ([v], r2)
    | _ => none

/-- Modelled from the spec: fueled parser for object members. -/
def pMembers : Nat → List Char → Option (List (String × Json) × List Char)
  | 0, _ => none
  | n + 1, l =>
    match trimLeft l with
    | '"' :: r => do
      let (k, r1) ← pString [] r
      match trimLeft r1 with
      | ':' :: r2 => do
        let (v, r3) ← pValue n r2
        match trimLeft r3 with
        | ',' :: r4 => (pMembers n r4).map (fun mr => ((String.mk k, v) :: mr.1, mr.2))
        | '}' :: r4 => some ([(String.mk k, v)], r4)
        | _ => none
      | _ => none
    | _ => none

end

/-- Modelled from the spec: parse a whole text as one JSON value. -/
def jsonParse (s : String) : Option Json :=
  match pValue (s.data.length + 1) s.data with
  | some (j, r) => if (trimLeft r).isEmpty then some j else none
  | none => none

/-- Field lookup in a JSON object. -/
def jLookup (k : String) (ms : List (String × Json)) : Option Json :=
  (ms.find? (fun p => p.1 == k)).map (fun p => p.2)

/-- Modelled from the spec: "Each element must supply title, artist,
genre, and popularity; popularity is coerced to float and clamped to
[0,1]; entries missing any mandatory field are skipped". -/
def songOfJson (j : Json) : Option Song :=
  match j with
  | Json.obj ms =>
    match jLookup "title" ms, jLookup "artist" ms, jLookup "genre" ms,
        jLookup "popularity" ms with
    | some (Json.str t), some (Json.str a), some (Json.str g), some (Json.num p) =>
      some { title := t, artist := a, genre := g, popularity := clamp01 p }
    | _, _, _, _ => none
  | _ => none

/-- Modelled from the spec: "Accept either a top-level array or an
object with a `songs` array". -/
def extractSongs (j : Json) : List Song :=
  match j with
  | Json.arr xs => xs.filterMap songOfJson
  | Json.obj ms =>
    match jLookup "songs" ms with
    | some (Json.arr xs) => xs.filterMap songOfJson
    | _ => []
  | _ => []

/-- Modelled from the spec: the structured parsing mode — strip fences,
parse as JSON, extract the songs, then the common post-processing (sort
by descending popularity, truncate to 25). -/
def parseStructured (s : String) : List Song :=
  match jsonParse (stripFences s) with
  | some j => (List.insertionSort popGE (extractSongs j)).take 25
  | none => []

theorem pyStrip_sublist (l : List Char) : List.Sublist (pyStrip l) l := by
  unfold pyStrip trimRight trimLeft
  have h1 : List.Sublist (List.dropWhile isSpc l) l := List.dropWhile_sublist isSpc
  have h2 : List.Sublist (List.dropWhile isSpc (List.dropWhile isSpc l).reverse)
      (List.dropWhile isSpc l).reverse := List.dropWhile_sublist isSpc
  have h3 := h2.reverse
  rw [List.reverse_reverse] at h3
  exact h3.trans h1

theorem trimLeft_eq_self_of_pyStrip {x : List Char} (h : pyStrip x = x) :
    trimLeft x = x := by
  have h1 : List.Sublist (trimLeft x) x := List.dropWhile_sublist isSpc
  have h2 : List.Sublist (pyStrip x) (trimLeft x) := by
    unfold pyStrip trimRight
    have hs : List.Sublist (List.dropWhile isSpc (trimLeft x).reverse) (trimLeft x).reverse :=
      List.dropWhile_sublist isSpc
    have := hs.reverse
    rwa [List.reverse_reverse] at this
  rw [h] at h2
  exact h1.eq_of_length (le_antisymm h1.length_le h2.length_le)

theorem trimRight_eq_self_of_pyStrip {x : List Char} (h : pyStrip x = x) :
    trimRight x = x := by
  have h1 := trimLeft_eq_self_of_pyStrip h
  have h2 := h
  unfold pyStrip at h2
  rw [h1] at h2
  exact h2

theorem pyStrip_pad {x : List Char} (h : pyStrip x = x) :
    pyStrip ('\n' :: (x ++ ['\n'])) = x := by
  have hR := trimRight_eq_self_of_pyStrip h
  have hL := trimLeft_eq_self_of_pyStrip h
  show trimRight (trimLeft ('\n' :: (x ++ ['\n']))) = x
  have step1 : trimLeft ('\n' :: (x ++ ['\n'])) = trimLeft (x ++ ['\n']) := by
    unfold trimLeft
    rw [List.dropWhile_cons, if_pos (by decide : isSpc '\n' = true)]
  rw [step1]
  cases hx : x with
  | nil => decide
  | cons c m =>
    have hc : isSpc c = false := by
      by_contra hcc
      rw [Bool.not_eq_false] at hcc
      have hdrop : trimLeft x = trimLeft m := by
        rw [hx]
        unfold trimLeft
        rw [List.dropWhile_cons]
        simp [hcc]
      rw [hL, hx] at hdrop
      have hlen := congrArg List.length hdrop
      have hle := ((List.dropWhile_sublist isSpc : List.Sublist (List.dropWhile isSpc m) m)).length_le
      simp only [List.length_cons] at hlen
      unfold trimLeft at hlen
      omega
    have step2 : trimLeft (x ++ ['\n']) = x ++ ['\n'] := by
      rw [hx]
      unfold trimLeft
      rw [List.cons_append, List.dropWhile_cons]
      simp [hc]
    rw [← hx, step2]
    have step3 : trimRight (x ++ ['\n']) = trimRight x := by
      unfold trimRight
      rw [List.reverse_append]
      show (List.dropWhile isSpc ('\n' :: x.reverse)).reverse = _
      rw [List.dropWhile_cons, if_pos (by decide : isSpc '\n' = true)]
    rw [step3, hR]

theorem stripFencesL_stage_sublist (l : List Char) :
    List.Sublist (stripFencesL l) (pyStrip l) := by
  unfold stripFencesL
  have h1 : List.Sublist (dropFenceStart (pyStrip l)) (pyStrip l) := by
    unfold dropFenceStart
    split_ifs
    · exact List.drop_sublist _ _
    · exact List.drop_sublist _ _
    · exact List.Sublist.refl _
  have h2 : List.Sublist (dropFenceEnd (dropFenceStart (pyStrip l)))
      (dropFenceStart (pyStrip l)) := by
    unfold dropFenceEnd
    split_ifs
    · exact List.take_sublist _ _
    · exact List.Sublist.refl _
  exact ((pyStrip_sublist _).trans h2).trans h1

theorem pyStrip_eq_self_of_stripFences {s : String} (h : stripFences s = s) :
    pyStrip s.data = s.data := by
  have hx : stripFencesL s.data = s.data := congrArg String.data h
  have h1 := stripFencesL_stage_sublist s.data
  rw [hx] at h1
  have h2 := pyStrip_sublist s.data
  exact h2.eq_of_length (le_antisymm h2.length_le h1.length_le)

/-- Claim C6 (spec-modelled): the structured parsing mode treats the
input as JSON after stripping optional code-fence markers, accepts a
top-level array and an object with a `songs` array interchangeably, and
is invariant under wrapping the input in code-fence markers. -/
theorem c6_structured_mode (xs : List Json) (s : String) (h : stripFences s = s) :
    extractSongs (Json.obj [("songs", Json.arr xs)]) = extractSongs (Json.arr xs) ∧
      parseStructured (wrapFence s) = parseStructured s := by
  constructor
  · rfl
  · have hps := pyStrip_eq_self_of_stripFences h
    have hstrip : stripFences (wrapFence s) = s := by
      unfold stripFences wrapFence stripFencesL
      have step0 : pyStrip (fenceJson ++ '\n' :: (s.data ++ '\n' :: fence))
          = fenceJson ++ '\n' :: (s.data ++ '\n' :: fence) := by
        apply pyStrip_eq_self
        · rfl
        · rw [show fenceJson ++ '\n' :: (s.data ++ '\n' :: fence)
              = (fenceJson ++ '\n' :: (s.data ++ ['\n'])) ++ fence from by
            simp [List.append_assoc]]
          exact headNotSpace_rev_append (by rfl)
      rw [step0]
      have step1 : dropFenceStart (fenceJson ++ '\n' :: (s.data ++ '\n' :: fence))
          = '\n' :: (s.data ++ '\n' :: fence) := by
        unfold dropFenceStart
        rw [if_pos (isPrefixOf_of_append fenceJson _), List.drop_left]
      rw [step1]
      have hpre2 : '\n' :: (s.data ++ '\n' :: fence)
          = ('\n' :: (s.data ++ ['\n'])) ++ fence := by
        simp [List.append_assoc]
      have step2 : dropFenceEnd ('\n' :: (s.data ++ '\n' :: fence))
          = '\n' :: (s.data ++ ['\n']) := by
        unfold dropFenceEnd
        rw [hpre2, List.reverse_append,
          if_pos (isPrefixOf_of_append fence.reverse _)]
        rw [show (('\n' :: (s.data ++ ['\n'])) ++ fence).length - fence.length
            = ('\n' :: (s.data ++ ['\n'])).length from by
          simp only [List.length_append, List.length_cons]
          omega]
        exact List.take_left _ _
      rw [step2, pyStrip_pad hps]
    unfold parseStructured
    rw [hstrip, h]

/-- Witness for C6 at the unfenced JSON text `"[]"`. -/
theorem c6_structured_mode_witness :
    stripFences "[]" = "[]" ∧
      (extractSongs (Json.obj [("songs", Json.arr [])]) = extractSongs (Json.arr []) ∧
        parseStructured (wrapFence "[]") = parseStructured "[]") :=
  ⟨by decide, c6_structured_mode [] "[]" (by decide)⟩
